import Mathlib

/-!
# PiX: framebuffer, palette and rasteriser of `src/pix.c`

A shallow embedding of the drawing core of `pix.c`.

* C `int` values are modelled by `Int`; the drawing code is only considered on
  arguments for which no `int` computation overflows (signed overflow is
  undefined in C). The coordinates given to the drawing functions are the
  values after their conversion to `int`.
* The arguments of `color`, `palette`, `screen` and the sizes of `draw` are Lua
  integers (64 bits) or numbers; the conversions `(int)luaL_checkinteger(..)`
  and `(int)luaL_checknumber(..)` that precede the argument checks are written
  out as `toInt` and `numberToInt`.
* `Uint8` values are modelled by `Nat`; every conversion to `Uint8` is written
  out as a reduction modulo `256`.
* The global variables of the program are gathered in the structure `State`.
* The static tables of `pix.h` (`palette`, `hexdecoder_table`, `font8x8`) are
  not part of the sources: `palette` is a component of the state, the two
  constant tables are parameters of the functions that read them.
* A Lua API function `f_xxx` takes the Lua argument list and returns either an
  error raised by `luaL_argcheck`/`luaL_error` or the new global state together
  with the values pushed to Lua. All functions modelled here raise their
  errors before they modify any global variable, so an error leaves the
  globals as they were.
* `Uint32` values are modelled by `Nat`; every `Uint32` operation is written
  out as a reduction modulo `2^32`.
* The calls into the SDL library are taken to succeed; the Lua callbacks are
  taken to return normally.
* A loop that need not terminate (`for (;;)` in `f_line`, the halving loop of
  `init_screen`, the update loop of `run_event_loop`) is run with a bound on the
  number of iterations and returns `none` when the bound is exceeded.
-/

namespace Pix

/-! ## Data model -/

/-- An `SDL_Point`. -/
structure SDL_Point where
  x : Int
  y : Int
  deriving DecidableEq, Repr

/-- An `SDL_Color`: four `Uint8` components. -/
structure SDL_Color where
  r : Nat
  g : Nat
  b : Nat
  a : Nat
  deriving DecidableEq, Repr

/-- The fields of the 8-bit `SDL_Surface` that `pix.c` reads and writes: its
size, its row pitch and its byte buffer `pixels`. -/
structure Surface where
  w : Int
  h : Int
  pitch : Int
  pixels : List Nat
  deriving DecidableEq, Repr

/-- The global variables of `pix.c` (`texture` and `surface32` are only tested
against `NULL`, so they are kept as booleans: `true` means non-`NULL`). -/
structure State where
  clip_tl : SDL_Point
  clip_br : SDL_Point
  palette_mapping : List Nat
  palette_modified : Int
  screen_modified : Int
  palette : List SDL_Color
  surface8 : Option Surface
  surface32 : Bool
  texture : Bool
  deriving DecidableEq, Repr

/-- Errors raised towards the Lua caller. `ArgError n msg` is what
`luaL_argcheck`/`luaL_check*` raise for argument `n` (the spec's
`InvalidArgument`); `Error msg` is a plain `luaL_error`. -/
inductive LuaError where
  | ArgError (arg : Nat) (msg : String)
  | Error (msg : String)
  deriving DecidableEq, Repr

/-! ## Helper macros -/

/-- The macro `minimum(a, b)`. -/
def minimum (a b : Int) : Int := if a < b then a else b

/-- The macro `maximum(a, b)`. -/
def maximum (a b : Int) : Int := if a > b then a else b

/-- The macro `clamp(x, min, max)`, that is `maximum(minimum(x, max), min)`. -/
def clamp (x min max : Int) : Int := maximum (minimum x max) min

/-- The macro `swap(T, a, b)`, whose body is `T tmp = a; a = b; a = tmp;`.
The result is the pair of the values of `a` and `b` after the statement. -/
def swap (a b : Int) : Int × Int :=
  let tmp := a
  let _a := b
  let a := tmp
  (a, b)

/-- Conversion of an integer to `Uint8`. -/
def toUint8 (v : Int) : Nat := (v % 256).toNat

/-- The constant `INT_MIN` of the 32-bit `int`. -/
def INT_MIN : Int := -2147483648

/-- The constant `INT_MAX` of the 32-bit `int`. -/
def INT_MAX : Int := 2147483647

/-- The conversion `(int)v` of a `lua_Integer` (64 bits) to the 32-bit `int`:
the reduction modulo `2^32` into `[INT_MIN, INT_MAX]` (implementation-defined
in C; this is what two's complement targets do). -/
def toInt (v : Int) : Int := (v + 2147483648) % 4294967296 - 2147483648

/-- The conversion `(int)v` of a `lua_Number` (a double, here of integral
value) to `int`: the value itself inside `[INT_MIN, INT_MAX]`. Outside that
range the conversion is undefined in C; it is modelled by `INT_MIN`, the
result of the x86 conversion instruction. -/
def numberToInt (v : Int) : Int := if INT_MIN ≤ v ∧ v ≤ INT_MAX then v else INT_MIN

/-- The product `a * b` of two `int` values, computed in `int`. An overflow is
undefined in C; it is modelled by the wrap-around modulo `2^32`. -/
def mulInt (a b : Int) : Int := toInt (a * b)

/-- The values `lo, lo+1, ..., hi` taken by the control variable of a loop
`for (v = lo; v <= hi; ++v)`; empty when `hi < lo`. A loop
`for (v = 0; v < n; ++v)` is `loopRange 0 (n - 1)`. -/
def loopRange (lo hi : Int) : List Int :=
  (List.range (hi + 1 - lo).toNat).map (fun (k : Nat) => lo + Int.ofNat k)

/-! ## The clipped pixel write -/

/-- One call `draw_pixel(x, y, color)`, recorded. -/
structure PixelCall where
  x : Int
  y : Int
  color : Nat
  deriving DecidableEq, Repr

/-- The test of `draw_pixel` on the clip rectangle. -/
def inClip (s : State) (x y : Int) : Prop :=
  x ≥ s.clip_tl.x ∧ x ≤ s.clip_br.x ∧ y ≥ s.clip_tl.y ∧ y ≤ s.clip_br.y

instance (s : State) (x y : Int) : Decidable (inClip s x y) := by
  unfold inClip; infer_instance

/-- The store `pixels[off] = v` into the byte buffer of a surface. A store
outside the buffer is undefined in C; it is modelled as no store. -/
def storeByte (pixels : List Nat) (off : Int) (v : Nat) : List Nat :=
  if 0 ≤ off then pixels.set off.toNat v else pixels

/-- The load `pixels[off]` from the byte buffer of a surface (`none` outside the
buffer). -/
def loadByte (pixels : List Nat) (off : Int) : Option Nat :=
  if 0 ≤ off then pixels[off.toNat]? else none

/-- The function `draw_pixel`. -/
def draw_pixel (s : State) (x y : Int) (color : Nat) : State :=
  match s.surface8 with
  | none => s
  | some surf =>
    if inClip s x y then
      { s with
        surface8 := some { surf with
          pixels := storeByte surf.pixels (surf.pitch * y + x)
            (s.palette_mapping.getD (color % 16) 0) }
        screen_modified := -1 }
    else s

/-- A sequence of `draw_pixel` calls, performed in order. -/
def draw_calls (s : State) (calls : List PixelCall) : State :=
  calls.foldl (fun st c => draw_pixel st c.x c.y c.color) s

/-- The canvas cell `(x, y)`: the byte at offset `pitch * y + x` of the 8-bit
surface (`none` when there is no surface or the offset is outside the
buffer). -/
def cell (s : State) (x y : Int) : Option Nat :=
  match s.surface8 with
  | none => none
  | some surf => loadByte surf.pixels (surf.pitch * y + x)

/-- The data-model invariant of a created framebuffer: the surface exists, its
buffer has `pitch * h` bytes with `pitch ≥ w`, the clip rectangle lies inside
`[0,w) × [0,h)` and the mapping table has 16 entries. -/
def WellFormed (s : State) : Prop :=
  match s.surface8 with
  | none => False
  | some surf =>
    0 < surf.w ∧ 0 < surf.h ∧ surf.w ≤ surf.pitch ∧
    (surf.pixels.length : Int) = surf.pitch * surf.h ∧
    0 ≤ s.clip_tl.x ∧ s.clip_br.x < surf.w ∧ 0 ≤ s.clip_tl.y ∧ s.clip_br.y < surf.h ∧
    s.palette_mapping.length = 16

instance (s : State) : Decidable (WellFormed s) := by
  unfold WellFormed; split <;> infer_instance

/-- The coordinate `(x, y)` names a cell of the canvas: `0 ≤ x < w`, `0 ≤ y < h`. -/
def inCanvas (s : State) (x y : Int) : Prop :=
  match s.surface8 with
  | none => False
  | some surf => 0 ≤ x ∧ x < surf.w ∧ 0 ≤ y ∧ y < surf.h

instance (s : State) (x y : Int) : Decidable (inCanvas s x y) := by
  unfold inCanvas; split <;> infer_instance

/-! ## Drawing functions -/

/-- The `draw_pixel` calls of `f_rect`, in program order. -/
def f_rect_calls (color : Nat) (x0 y0 x1 y1 : Int) (fill : Bool) : List PixelCall :=
  let (x0, x1) := if x0 > x1 then swap x0 x1 else (x0, x1)
  let (y0, y1) := if y0 > y1 then swap y0 y1 else (y0, y1)
  if fill then
    (loopRange y0 y1).flatMap fun y =>
      (loopRange x0 x1).map fun x => PixelCall.mk x y color
  else
    ((loopRange y0 y1).flatMap fun y =>
      [PixelCall.mk x0 y color, PixelCall.mk x1 y color]) ++
    ((loopRange x0 x1).flatMap fun x =>
      [PixelCall.mk x y0 color, PixelCall.mk x y1 color])

/-- The function `f_rect`: `rect(color, x0, y0, x1, y1, fill)`. -/
def f_rect (s : State) (color x0 y0 x1 y1 : Int) (fill : Bool) : State :=
  draw_calls s (f_rect_calls (toUint8 color) x0 y0 x1 y1 fill)

/-- The `draw_pixel` calls of `f_circle`, in program order. -/
def f_circle_calls (color : Nat) (x0 y0 radius : Int) (fill : Bool) : List PixelCall :=
  let r0sq := if fill then 0 else (radius - 1) * (radius - 1)
  let r1sq := radius * radius
  (loopRange (-radius) radius).flatMap fun y =>
    let dy := y * y
    (loopRange (-radius) radius).filterMap fun x =>
      let dx := x * x
      let dist := dx + dy
      if dist ≥ r0sq ∧ dist ≤ r1sq then some (PixelCall.mk (x0 + x) (y0 + y) color) else none

/-- The function `f_circle`: `circle(color, x0, y0, radius, fill)`. -/
def f_circle (s : State) (color x0 y0 radius : Int) (fill : Bool) : State :=
  draw_calls s (f_circle_calls (toUint8 color) x0 y0 radius fill)

/-- The function `f_pixel`: `pixel(color, x0, y0)`. -/
def f_pixel (s : State) (color x0 y0 : Int) : State :=
  draw_pixel s x0 y0 (toUint8 color)

/-- The C library function `abs` on `int`. -/
def abs (v : Int) : Int := if v < 0 then -v else v

/-- The loop `for (;;)` of `f_line`, run for at most `fuel` iterations, from the
current values of `x0`, `y0` and `err`. The result is the list of `draw_pixel`
calls up to the `break`, or `none` when the `break` is not reached within
`fuel` iterations. -/
def line_loop (color : Nat) (x1 y1 dx dy sx sy : Int) :
    Nat → Int → Int → Int → Option (List PixelCall)
  | 0, _, _, _ => none
  | fuel + 1, x0, y0, err =>
    let call := PixelCall.mk x0 y0 color
    if x0 = x1 ∧ y0 = y1 then some [call]
    else
      let e2 := err * 2
      let (err, x0) := if e2 > dy then (err + dy, x0 + sx) else (err, x0)
      let (err, y0) := if e2 < dx then (err + dx, y0 + sy) else (err, y0)
      (line_loop color x1 y1 dx dy sx sy fuel x0 y0 err).map (fun rest => call :: rest)

/-- The number of loop iterations granted to `f_line`: `|x1-x0| + |y1-y0| + 1`
(see `line_loop_terminates`: the loop always breaks within this bound). -/
def line_fuel (x0 y0 x1 y1 : Int) : Nat :=
  (abs (x1 - x0) + abs (y1 - y0) + 1).toNat

/-- The `draw_pixel` calls of `f_line`, in program order. -/
def f_line_calls (color : Nat) (x0 y0 x1 y1 : Int) : Option (List PixelCall) :=
  let dx := abs (x1 - x0)
  let sx : Int := if x0 < x1 then 1 else -1
  let dy := -abs (y1 - y0)
  let sy : Int := if y0 < y1 then 1 else -1
  let err := dx + dy
  line_loop color x1 y1 dx dy sx sy (line_fuel x0 y0 x1 y1) x0 y0 err

/-- The image of a recorded call under the point reflection
`(x, y) ↦ (X - x, Y - y)`. -/
def reflectCall (X Y : Int) (p : PixelCall) : PixelCall :=
  PixelCall.mk (X - p.x) (Y - p.y) p.color

/-- Two consecutive calls of a line differ by at most 1 in each coordinate. -/
def Adjacent (u v : PixelCall) : Prop :=
  abs (v.x - u.x) ≤ 1 ∧ abs (v.y - u.y) ≤ 1

/-- The function `f_line`: `line(color, x0, y0, x1, y1)`. -/
def f_line (s : State) (color x0 y0 x1 y1 : Int) : Option State :=
  (f_line_calls (toUint8 color) x0 y0 x1 y1).map (draw_calls s)

/-- The `draw_pixel` calls of `f_draw`, in program order: the bytes of `pixels`
are consumed one per inner iteration (`*pixels++`), decoded through
`hexdecoder_table`, and drawn unless equal to `alpha`. -/
def f_draw_calls (hexdecoder_table : Nat → Nat) (x0 y0 w h : Int) (pixels : List Nat)
    (alpha : Nat) : List PixelCall :=
  let iterations := (loopRange 0 (h - 1)).flatMap fun y =>
    (loopRange 0 (w - 1)).map fun x => (x, y)
  (iterations.zip pixels).filterMap fun it =>
    let color := hexdecoder_table it.2 % 256
    if color ≠ alpha then some (PixelCall.mk (x0 + it.1.1) (y0 + it.1.2) color) else none

/-- The function `f_draw`: `draw(x0, y0, w, h, pixels [, alpha])`. The table
`hexdecoder_table` of `pix.h` is a parameter. `w` and `h` are the Lua integers
given, narrowed by `(int)luaL_checkinteger`; the test is
`(int)length == w * h`, in `int`. -/
def f_draw (hexdecoder_table : Nat → Nat) (s : State) (x0 y0 w h : Int) (pixels : List Nat)
    (alpha : Option Int) : Except LuaError State :=
  let w := toInt w
  let h := toInt h
  let alpha := toUint8 (alpha.getD 256)
  if toInt (pixels.length : Int) = mulInt w h then
    .ok (draw_calls s (f_draw_calls hexdecoder_table x0 y0 w h pixels alpha))
  else .error (.ArgError 5 "invalid length of pixel string")

/-! ## Palette functions -/

/-- The function `f_color`: `color(idx [, r, g, b])`. `idx` is narrowed by
`(int)luaL_checkinteger`, `r`, `g`, `b` by `(int)luaL_checknumber`. -/
def f_color (s : State) (args : List Int) : Except LuaError (State × List Int) :=
  match args with
  | [] => .error (.ArgError 1 "number expected, got no value")
  | idx :: rest =>
    let idx := toInt idx
    if ¬ (idx ≥ 0 ∧ idx < 16) then .error (.ArgError 1 "invalid color index")
    else
      let color := s.palette.getD idx.toNat ⟨0, 0, 0, 0⟩
      match rest with
      | [] => .ok (s, [(color.r : Int), (color.g : Int), (color.b : Int)])
      | r :: g :: b :: _ =>
        let r := numberToInt r
        let g := numberToInt g
        let b := numberToInt b
        let color := { color with
          r := toUint8 (clamp r 0 255)
          g := toUint8 (clamp g 0 255)
          b := toUint8 (clamp b 0 255) }
        .ok ({ s with palette := s.palette.set idx.toNat color },
          [(color.r : Int), (color.g : Int), (color.b : Int)])
      | _ => .error (.ArgError (rest.length + 2) "number expected, got no value")

/-- The function `f_palette`: `palette()`, `palette(idx)`, `palette(idx, color)`.
`idx` and `color` are narrowed by `(int)luaL_checkinteger`. -/
def f_palette (s : State) (args : List Int) : Except LuaError (State × List Int) :=
  match args with
  | [] =>
    .ok ({ s with palette_mapping :=
      (List.range 16).foldl (fun m i => m.set i (toUint8 i)) s.palette_mapping }, [])
  | [idx] =>
    let idx := toInt idx
    if ¬ (idx ≥ 0 ∧ idx < 16) then .error (.ArgError 1 "invalid color index")
    else .ok (s, [(s.palette_mapping.getD idx.toNat 0 : Int)])
  | [idx, color] =>
    let idx := toInt idx
    let color := toInt color
    if ¬ (idx ≥ 0 ∧ idx < 16) then .error (.ArgError 1 "invalid color index")
    else if ¬ (idx ≥ 0 ∧ idx < 16) then .error (.ArgError 2 "invalid color index")
    else .ok ({ s with palette_mapping := s.palette_mapping.set idx.toNat (toUint8 color) },
      [color])
  | _ => .error (.Error "wrong number of arguments")

/-- The spec's `set_color(index, r, g, b)`. -/
def set_color (s : State) (index r g b : Int) : Except LuaError (State × List Int) :=
  f_color s [index, r, g, b]

/-- The spec's `get_color(index)`. -/
def get_color (s : State) (index : Int) : Except LuaError (State × List Int) :=
  f_color s [index]

/-- The spec's `remap(index, target)`. -/
def remap (s : State) (index target : Int) : Except LuaError (State × List Int) :=
  f_palette s [index, target]

/-- The spec's `get_mapping(index)`. -/
def get_mapping (s : State) (index : Int) : Except LuaError (State × List Int) :=
  f_palette s [index]

/-- The spec's `reset_mapping()`. -/
def reset_mapping (s : State) : Except LuaError (State × List Int) :=
  f_palette s []

/-! ## Presentation -/

/-- The calls made to the SDL backend by `render_screen`. -/
inductive BackendCall where
  | RenderClear
  | SetPaletteColors (colors : List SDL_Color)
  | BlitSurface
  | UpdateTexture
  | RenderCopy
  | RenderPresent
  deriving DecidableEq, Repr

/-- The function `render_screen`, with every SDL call succeeding: the new
globals and the SDL calls made, in order. -/
def render_screen (s : State) : State × List BackendCall :=
  let log := [BackendCall.RenderClear]
  let (s, log) :=
    if s.texture ∧ s.surface32 ∧ s.surface8.isSome then
      let (s, log) :=
        if s.screen_modified ≠ 0 then
          let s := { s with screen_modified := 0 }
          let (s, log) :=
            if s.palette_modified ≠ 0 then
              ({ s with palette_modified := 0 },
                log ++ [BackendCall.SetPaletteColors (s.palette.take 16)])
            else (s, log)
          (s, log ++ [BackendCall.BlitSurface, BackendCall.UpdateTexture])
        else (s, log)
      (s, log ++ [BackendCall.RenderCopy])
    else (s, log)
  (s, log ++ [BackendCall.RenderPresent])

/-! ## More drawing functions -/

/-- The `draw_pixel` calls of `f_clear`, in program order. -/
def f_clear_calls (s : State) (color : Nat) : List PixelCall :=
  (loopRange s.clip_tl.y s.clip_br.y).flatMap fun y =>
    (loopRange s.clip_tl.x s.clip_br.x).map fun x => PixelCall.mk x y color

/-- The function `f_clear`: `clear([color])`. -/
def f_clear (s : State) (color : Option Int) : State :=
  draw_calls s (f_clear_calls s (toUint8 (color.getD 0)))

/-- The `draw_pixel` calls of `f_print`, in program order. The table `font8x8`
of `pix.h` is a parameter: `font8x8 ch y` is the bit mask of row `y` of the
glyph of the character code `ch`. -/
def f_print_calls (font8x8 : Nat → Nat → Nat) (color : Nat) (x0 y0 : Int) :
    List Nat → List PixelCall
  | [] => []
  | ch :: rest =>
    ((loopRange 0 7).flatMap fun y =>
      let bits := font8x8 ch y.toNat
      (loopRange 0 7).filterMap fun x =>
        if bits &&& (1 <<< x.toNat) ≠ 0 then some (PixelCall.mk (x0 + x) (y0 + y) color)
        else none) ++
    f_print_calls font8x8 color (x0 + 8) y0 rest

/-- The function `f_print`: `print(color, x0, y0, str)`. -/
def f_print (font8x8 : Nat → Nat → Nat) (s : State) (color x0 y0 : Int) (str : List Nat) :
    State :=
  draw_calls s (f_print_calls font8x8 (toUint8 color) x0 y0 str)

/-- A store into the canvas: the coordinate given to `draw_pixel` and the byte
offset `pitch * y + x` that is written. -/
structure Store where
  x : Int
  y : Int
  offset : Int
  deriving DecidableEq, Repr

/-- The store that `draw_pixel(x, y, _)` executes in state `s`, if any. -/
def draw_pixel_store (s : State) (x y : Int) : Option Store :=
  match s.surface8 with
  | none => none
  | some surf => if inClip s x y then some (Store.mk x y (surf.pitch * y + x)) else none

/-- The stores executed by a sequence of `draw_pixel` calls, in order. -/
def draw_calls_stores : State → List PixelCall → List Store
  | _, [] => []
  | s, c :: rest =>
    (draw_pixel_store s c.x c.y).toList ++ draw_calls_stores (draw_pixel s c.x c.y c.color) rest

/-- The size in bytes, `pitch * h`, of the buffer of the 8-bit surface. -/
def bufferSize (s : State) : Int :=
  match s.surface8 with
  | none => 0
  | some surf => surf.pitch * surf.h

/-- The row pitch of the 8-bit surface. -/
def rowPitch (s : State) : Int :=
  match s.surface8 with
  | none => 0
  | some surf => surf.pitch

/-- The calls `calls`, performed in state `s`, store only at coordinates inside
the clip rectangle, at the byte offset `pitch * y + x`, which lies inside the
buffer; and they leave every canvas cell outside the clip rectangle as it
was. -/
def WritesInsideClip (s : State) (calls : List PixelCall) : Prop :=
  (∀ st ∈ draw_calls_stores s calls,
    inClip s st.x st.y ∧ st.offset = rowPitch s * st.y + st.x ∧
    0 ≤ st.offset ∧ st.offset < bufferSize s) ∧
  (∀ x y, inCanvas s x y → ¬ inClip s x y → cell (draw_calls s calls) x y = cell s x y)

/-! ## Screen creation and window fitting -/

/-- The constant `PIX_WINDOW_WIDTH`. -/
def PIX_WINDOW_WIDTH : Int := 256

/-- The constant `PIX_WINDOW_HEIGHT`. -/
def PIX_WINDOW_HEIGHT : Int := 256

/-- The constant `PIX_WINDOW_PADDING`. -/
def PIX_WINDOW_PADDING : Int := 64

/-- The constant `PIX_MAX_WINDOW_WIDTH`. -/
def PIX_MAX_WINDOW_WIDTH : Int := 1024

/-- The constant `PIX_MAX_WINDOW_HEIGHT`. -/
def PIX_MAX_WINDOW_HEIGHT : Int := 1024

/-- The fields `w` and `h` of an `SDL_DisplayMode`. -/
structure SDL_DisplayMode where
  w : Int
  h : Int
  deriving DecidableEq, Repr

/-- The loop `while (width > dm.w || height > dm.h) { width /= 2; height /= 2; }`
of `init_screen`, run for at most `fuel` iterations: the final `(width, height)`,
or `none` when the condition still holds after `fuel` iterations. -/
def halve_loop (dm : SDL_DisplayMode) : Nat → Int → Int → Option (Int × Int)
  | 0, width, height =>
    if width > dm.w ∨ height > dm.h then none else some (width, height)
  | fuel + 1, width, height =>
    if width > dm.w ∨ height > dm.h then
      halve_loop dm fuel (Int.tdiv width 2) (Int.tdiv height 2)
    else some (width, height)

/-- The computation of the window size at the end of `init_screen`: the
arguments given to `SDL_SetWindowSize`. `desktop` is the result of
`SDL_GetDesktopDisplayMode` (`none` when that call fails). The result is `none`
when the halving loop does not finish within `fuel` iterations. -/
def fit_window (fuel : Nat) (desktop : Option SDL_DisplayMode) (width height : Int) :
    Option (Int × Int) :=
  match desktop with
  | none => some (width, height)
  | some dm =>
    let dm : SDL_DisplayMode := { w := dm.w - PIX_WINDOW_WIDTH, h := dm.h - PIX_WINDOW_HEIGHT }
    if width > dm.w ∨ height > dm.h then halve_loop dm fuel width height
    else
      let fx := Int.tdiv dm.w width
      let fy := Int.tdiv dm.h height
      some (width * (if fx < fy then fx else fy), height * (if fx < fy then fx else fy))

/-- The function `destroy_screen`. -/
def destroy_screen (s : State) : State :=
  { s with surface8 := none, surface32 := false, texture := false }

/-- The SDL library call `SDL_CreateRGBSurface(0, width, height, 8, 0, 0, 0, 0)`,
when it succeeds: a surface of the given size, with rows padded to a multiple
of 4 bytes and all bytes zero. -/
def SDL_CreateRGBSurface8 (width height : Int) : Surface :=
  let pitch := (width + 3) / 4 * 4
  { w := width, h := height, pitch := pitch,
    pixels := List.replicate (pitch * height).toNat 0 }

/-- The function `init_screen`, with every SDL call succeeding: the new globals
and the window size given to `SDL_SetWindowSize`; `none` when the halving loop
does not finish within `fuel` iterations. -/
def init_screen (fuel : Nat) (desktop : Option SDL_DisplayMode) (s : State)
    (width height : Int) : Option (State × (Int × Int)) :=
  let s := destroy_screen s
  let s := { s with
    texture := true
    surface32 := true
    surface8 := some (SDL_CreateRGBSurface8 width height) }
  let s := { s with
    clip_tl := ⟨0, 0⟩
    clip_br := ⟨width - 1, height - 1⟩
    screen_modified := -1
    palette_modified := -1
    palette_mapping :=
      (List.range 16).foldl (fun m i => m.set i (toUint8 i)) s.palette_mapping }
  (fit_window fuel desktop width height).map fun win => (s, win)

/-- The function `f_screen`: `screen([w, h [, title]])`. On success the values
pushed are `surface8->w, surface8->h`, or, without a surface, `nil` and the
message "screen not initialized" (`none` here). `w` and `h` are narrowed by
`(int)luaL_checkinteger`. The outer `Option` is `none` when `init_screen` does
not return. -/
def f_screen (fuel : Nat) (desktop : Option SDL_DisplayMode) (s : State) (args : List Int) :
    Option (Except LuaError (State × Option (Int × Int))) :=
  let result (s : State) : Except LuaError (State × Option (Int × Int)) :=
    .ok (s, s.surface8.map fun surf => (surf.w, surf.h))
  match args with
  | [] => some (result s)
  | [_] => some (.error (.ArgError 2 "number expected, got no value"))
  | w :: h :: _ =>
    let w := toInt w
    let h := toInt h
    if ¬ (w > 0 ∧ w ≤ PIX_MAX_WINDOW_WIDTH) then
      some (.error (.ArgError 1 "invalid screen width"))
    else if ¬ (h > 0 ∧ h ≤ PIX_MAX_WINDOW_HEIGHT) then
      some (.error (.ArgError 2 "invalid screen height"))
    else (init_screen fuel desktop s w h).map fun r => result r.1

/-- The spec's `create(width, height)`. -/
def create (fuel : Nat) (desktop : Option SDL_DisplayMode) (s : State) (width height : Int) :
    Option (Except LuaError (State × Option (Int × Int))) :=
  f_screen fuel desktop s [width, height]

/-! ## The event loop -/

/-- The constant `PIX_FPS`. -/
def PIX_FPS : Nat := 30

/-- The constant `PIX_FPS_TICKS`, `1000 / PIX_FPS` in integer arithmetic. -/
def PIX_FPS_TICKS : Nat := 1000 / PIX_FPS

/-- Reduction of a natural number to `Uint32`. -/
def toUint32 (v : Nat) : Nat := v % 4294967296

/-- The `Uint32` locals of `run_event_loop`. -/
structure LoopState where
  last_tick : Nat
  delta_ticks : Nat
  frame_no : Nat
  deriving DecidableEq, Repr

/-- What one iteration of the event loop does after the event handling: calls
of the Lua callback `on_update(frame_no)` and calls of `render_screen`. -/
inductive LoopEvent where
  | on_update (frame_no : Nat)
  | render_screen
  deriving DecidableEq, Repr

/-- The loop
`for (; delta_ticks >= PIX_FPS_TICKS; delta_ticks -= PIX_FPS_TICKS) { ++frame_no; ... }`
of `run_event_loop`, run for at most `fuel` iterations: the final `delta_ticks`
and `frame_no` and the `on_update` calls made (none when no `on_update`
callback is registered), or `none` when the condition still holds after `fuel`
iterations. The callbacks are taken to return normally. -/
def update_loop (has_on_update : Bool) :
    Nat → Nat → Nat → Option (Nat × Nat × List LoopEvent)
  | 0, delta_ticks, frame_no =>
    if delta_ticks ≥ PIX_FPS_TICKS then none else some (delta_ticks, frame_no, [])
  | fuel + 1, delta_ticks, frame_no =>
    if delta_ticks ≥ PIX_FPS_TICKS then
      let frame_no := toUint32 (frame_no + 1)
      let calls := if has_on_update then [LoopEvent.on_update frame_no] else []
      (update_loop has_on_update fuel (toUint32 (delta_ticks - PIX_FPS_TICKS)) frame_no).map
        fun r => (r.1, r.2.1, calls ++ r.2.2)
    else some (delta_ticks, frame_no, [])

/-- One iteration of the `while (event_loop_running)` loop of `run_event_loop`
in which `SDL_GetTicks()` returns `current_tick`: the new locals and the
`on_update` and `render_screen` calls made, in order (the event handling at the
start of the iteration is left out). The update loop is granted
`delta_ticks / PIX_FPS_TICKS` iterations (see `update_loop_spec`: it always
finishes within this bound). -/
def loop_iteration (has_on_update : Bool) (st : LoopState) (current_tick : Nat) :
    Option (LoopState × List LoopEvent) :=
  let delta_ticks :=
    toUint32 (st.delta_ticks + toUint32 (current_tick + 4294967296 - st.last_tick))
  (update_loop has_on_update (delta_ticks / PIX_FPS_TICKS) delta_ticks st.frame_no).map
    fun r => ({ last_tick := current_tick, delta_ticks := r.1, frame_no := r.2.1 },
      r.2.2 ++ [LoopEvent.render_screen])

/-! ## A sample state -/

/-- A 2×2 framebuffer as `init_screen` creates it (all cells 0, full clip,
identity mapping), after one `render_screen` (both flags clear). -/
def sampleState : State :=
  { clip_tl := ⟨0, 0⟩
    clip_br := ⟨1, 1⟩
    palette_mapping := [0, 1, 2, 3, 4, 5, 6, 7, 8, 9, 10, 11, 12, 13, 14, 15]
    palette_modified := 0
    screen_modified := 0
    palette := List.replicate 16 ⟨0, 0, 0, 255⟩
    surface8 := some ⟨2, 2, 2, [0, 0, 0, 0]⟩
    surface32 := true
    texture := true }

/-! ## Basic facts -/

theorem loopRange_empty (lo hi : Int) (h : hi < lo) : loopRange lo hi = [] := by
  have h0 : (hi + 1 - lo).toNat = 0 := by omega
  simp [loopRange, h0]

theorem loopRange_single (v : Int) : loopRange v v = [v] := by
  have h1 : (v + 1 - v).toNat = 1 := by omega
  simp [loopRange, h1, List.range_succ]

theorem length_loopRange (lo hi : Int) : (loopRange lo hi).length = (hi + 1 - lo).toNat := by
  simp only [loopRange, List.length_map, List.length_range]

theorem draw_calls_nil (s : State) : draw_calls s [] = s := rfl

theorem swap_eq (a b : Int) : swap a b = (a, b) := rfl

theorem toUint8_clamp (v : Int) : (toUint8 (clamp v 0 255) : Int) = clamp v 0 255 := by
  simp only [toUint8, clamp, maximum, minimum]
  split_ifs <;> omega

theorem clamp_of_mem (v : Int) (h : 0 ≤ v ∧ v ≤ 255) : clamp v 0 255 = v := by
  simp only [clamp, maximum, minimum]
  split_ifs <;> omega

theorem toUint8_of_lt (v : Int) (h : 0 ≤ v ∧ v < 256) : (toUint8 v : Int) = v := by
  simp only [toUint8]
  omega

theorem toUint8_mod_16 (v : Int) : toUint8 v % 16 = (v % 16).toNat := by
  simp only [toUint8]
  omega

/-- Inside the `int` range the conversion from `lua_Integer` changes nothing. -/
theorem toInt_of_range (v : Int) (h : INT_MIN ≤ v ∧ v ≤ INT_MAX) : toInt v = v := by
  have h1 : INT_MIN = -2147483648 := rfl
  have h2 : INT_MAX = 2147483647 := rfl
  simp only [toInt]
  omega

theorem toInt_of_small (v : Int) (h : -1024 ≤ v ∧ v ≤ 1024) : toInt v = v := by
  simp only [toInt]
  omega

/-- The result of the conversion from `lua_Integer` lies in the `int` range. -/
theorem toInt_range (v : Int) : INT_MIN ≤ toInt v ∧ toInt v ≤ INT_MAX := by
  have h1 : INT_MIN = -2147483648 := rfl
  have h2 : INT_MAX = 2147483647 := rfl
  simp only [toInt]
  omega

theorem toUint8_toInt (v : Int) : toUint8 (toInt v) = toUint8 v := by
  simp only [toUint8, toInt]
  omega

/-- Inside the `int` range the conversion from `lua_Number` changes nothing. -/
theorem numberToInt_of_range (v : Int) (h : INT_MIN ≤ v ∧ v ≤ INT_MAX) :
    numberToInt v = v := by
  simp only [numberToInt, if_pos h]


/-- The loop `for (i = 0; i < n; ++i) m[i] = f(i);` entry by entry. -/
theorem foldl_set_range (f : Nat → Nat) (n : Nat) (m : List Nat) :
    ((List.range n).foldl (fun m i => m.set i (f i)) m).length = m.length ∧
    ∀ k, ((List.range n).foldl (fun m i => m.set i (f i)) m)[k]? =
      if k < n ∧ k < m.length then some (f k) else m[k]? := by
  induction n with
  | zero => simp
  | succ n ih =>
    obtain ⟨hl, hk⟩ := ih
    rw [List.range_succ, List.foldl_append]
    refine ⟨by simp [hl], fun k => ?_⟩
    simp only [List.foldl_cons, List.foldl_nil, List.getElem?_set, hl, hk]
    by_cases h1 : n = k
    · subst h1
      by_cases h2 : n < m.length
      · simp [h2]
      · have h3 : m.length ≤ n := by omega
        simp [h2, List.getElem?_eq_none h3]
    · have h4 : (k < n + 1) ↔ (k < n) := by omega
      simp [h1, h4]

theorem loadByte_storeByte_same (p : List Nat) (off : Int) (v : Nat)
    (h0 : 0 ≤ off) (hlt : off < p.length) : loadByte (storeByte p off v) off = some v := by
  have h : off.toNat < p.length := by omega
  simp [loadByte, storeByte, h0, List.getElem?_set_self h]

theorem loadByte_storeByte_other (p : List Nat) (off off' : Int) (v : Nat)
    (hne : off ≠ off') : loadByte (storeByte p off v) off' = loadByte p off' := by
  unfold loadByte storeByte
  by_cases h0 : 0 ≤ off
  · by_cases h1 : 0 ≤ off'
    · have h : off.toNat ≠ off'.toNat := by omega
      simp [h0, h1, List.getElem?_set_ne h]
    · simp [h1]
  · simp [h0]

/-- Distinct cells of a row-major buffer have distinct byte offsets. -/
theorem offset_injective (pitch x y x' y' : Int) (hx : 0 ≤ x ∧ x < pitch)
    (hx' : 0 ≤ x' ∧ x' < pitch) (h : pitch * y + x = pitch * y' + x') : x = x' ∧ y = y' := by
  have hy : y = y' := by
    rcases lt_trichotomy y y' with hlt | heq | hgt
    · have h1 : pitch * (y + 1) ≤ pitch * y' := by
        apply mul_le_mul_of_nonneg_left <;> omega
      have h2 : pitch * (y + 1) = pitch * y + pitch := by ring
      omega
    · exact heq
    · have h1 : pitch * (y' + 1) ≤ pitch * y := by
        apply mul_le_mul_of_nonneg_left <;> omega
      have h2 : pitch * (y' + 1) = pitch * y' + pitch := by ring
      omega
  subst hy
  exact ⟨by omega, rfl⟩

/-- The byte offset of a cell of the canvas lies inside the buffer. -/
theorem offset_in_buffer (pitch w h x y : Int) (hw : w ≤ pitch) (hx : 0 ≤ x ∧ x < w)
    (hy : 0 ≤ y ∧ y < h) : 0 ≤ pitch * y + x ∧ pitch * y + x < pitch * h := by
  have h0 : 0 ≤ pitch * y := mul_nonneg (by omega) hy.1
  have h1 : pitch * (y + 1) ≤ pitch * h := by
    apply mul_le_mul_of_nonneg_left <;> omega
  have h2 : pitch * (y + 1) = pitch * y + pitch := by ring
  omega

/-! ## The line loop -/

theorem c_abs_nonneg (v : Int) : 0 ≤ abs v := by
  unfold abs; split_ifs <;> omega

theorem c_abs_sub_comm (a b : Int) : abs (a - b) = abs (b - a) := by
  unfold abs; split_ifs <;> omega

theorem line_fuel_comm (x0 y0 x1 y1 : Int) : line_fuel x1 y1 x0 y0 = line_fuel x0 y0 x1 y1 := by
  simp only [line_fuel, c_abs_sub_comm x0 x1, c_abs_sub_comm y0 y1]

/-- One unfolding of the loop of `f_line`. -/
theorem line_loop_succ (c : Nat) (x1 y1 dx dy sx sy : Int) (n : Nat) (x y err : Int) :
    line_loop c x1 y1 dx dy sx sy (n + 1) x y err =
      if x = x1 ∧ y = y1 then some [PixelCall.mk x y c]
      else
        (line_loop c x1 y1 dx dy sx sy n
          (if err * 2 > dy then x + sx else x)
          (if err * 2 < dx then y + sy else y)
          ((if err * 2 > dy then err + dy else err) + (if err * 2 < dx then dx else 0))).map
          (fun rest => PixelCall.mk x y c :: rest) := by
  by_cases hb : x = x1 ∧ y = y1
  · simp [line_loop, hb]
  · by_cases h1 : err * 2 > dy <;> by_cases h2 : err * 2 < dx <;>
      simp [line_loop, hb, h1, h2]

/-- Running the loop towards the reflected end point with negated steps gives
the reflected calls. -/
theorem line_loop_reflect (c : Nat) (x1 y1 dx dy sx sy X Y : Int) :
    ∀ (n : Nat) (x y err : Int),
      line_loop c (X - x1) (Y - y1) dx dy (-sx) (-sy) n (X - x) (Y - y) err =
        (line_loop c x1 y1 dx dy sx sy n x y err).map (List.map (reflectCall X Y)) := by
  intro n
  induction n with
  | zero => intro x y err; simp [line_loop]
  | succ n ih =>
    intro x y err
    rw [line_loop_succ, line_loop_succ]
    have hc : (X - x = X - x1 ∧ Y - y = Y - y1) ↔ (x = x1 ∧ y = y1) := by omega
    by_cases hb : x = x1 ∧ y = y1
    · simp [hb, reflectCall]
    · have hb' : ¬ (X - x = X - x1 ∧ Y - y = Y - y1) := fun h => hb (hc.mp h)
      rw [if_neg hb, if_neg hb']
      have hx : (if err * 2 > dy then X - x + -sx else X - x) =
          X - (if err * 2 > dy then x + sx else x) := by
        split_ifs <;> ring
      have hy : (if err * 2 < dx then Y - y + -sy else Y - y) =
          Y - (if err * 2 < dx then y + sy else y) := by
        split_ifs <;> ring
      rw [hx, hy, ih]
      cases line_loop c x1 y1 dx dy sx sy n (if err * 2 > dy then x + sx else x)
        (if err * 2 < dx then y + sy else y)
        ((if err * 2 > dy then err + dy else err) + (if err * 2 < dx then dx else 0)) <;>
        simp [reflectCall]

/-- When `dx = 0` the error term stays at `dy` and `x0` is never stepped, so the
value of `sx` does not matter. -/
theorem line_loop_sx_irrelevant (c : Nat) (x1 y1 dy sx sx2 sy : Int) (hdy : dy ≤ 0) :
    ∀ (n : Nat) (x y : Int),
      line_loop c x1 y1 0 dy sx sy n x y dy = line_loop c x1 y1 0 dy sx2 sy n x y dy := by
  intro n
  induction n with
  | zero => intro x y; simp [line_loop]
  | succ n ih =>
    intro x y
    rw [line_loop_succ, line_loop_succ]
    have h1 : ¬ (dy * 2 > dy) := by omega
    simp only [h1, if_false]
    have h2 : (dy + if dy * 2 < 0 then (0 : Int) else 0) = dy := by split_ifs <;> omega
    rw [h2, ih]

/-- When `dy = 0` the error term stays at `dx` and `y0` is never stepped, so the
value of `sy` does not matter. -/
theorem line_loop_sy_irrelevant (c : Nat) (x1 y1 dx sx sy sy2 : Int) (hdx : 0 ≤ dx) :
    ∀ (n : Nat) (x y : Int),
      line_loop c x1 y1 dx 0 sx sy n x y dx = line_loop c x1 y1 dx 0 sx sy2 n x y dx := by
  intro n
  induction n with
  | zero => intro x y; simp [line_loop]
  | succ n ih =>
    intro x y
    rw [line_loop_succ, line_loop_succ]
    have h1 : ¬ (dx * 2 < dx) := by omega
    simp only [h1, if_false]
    have h2 : ((if dx * 2 > 0 then dx + 0 else dx) + 0) = dx := by split_ifs <;> omega
    rw [h2, ih]

/-- Termination of the loop of `f_line`. With `a = |x1-x0|`, `b = |y1-y0|`, and
`p`, `q` the numbers of x-steps and y-steps still to be made, the error term is
`a - b + p*b - q*a`; every iteration that does not break makes at least one
step and never more steps than remain, so `p + q + 1` iterations suffice. -/
theorem line_loop_terminates (c : Nat) (x1 y1 a b sx sy : Int) (ha : 0 ≤ a) (hb : 0 ≤ b) :
    ∀ (n : Nat) (p q x y err : Int), 0 ≤ p → p ≤ a → 0 ≤ q → q ≤ b →
      x = x1 - sx * p → y = y1 - sy * q → err = a - b + p * b - q * a →
      p + q + 1 ≤ (n : Int) →
      ∃ calls, line_loop c x1 y1 a (-b) sx sy n x y err = some calls := by
  intro n
  induction n with
  | zero => intro p q x y err hp0 _ hq0 _ _ _ _ hn; omega
  | succ n ih =>
    intro p q x y err hp0 hpa hq0 hqb hx hy herr hn
    rw [line_loop_succ]
    by_cases hbr : x = x1 ∧ y = y1
    · exact ⟨_, if_pos hbr⟩
    · rw [if_neg hbr]
      have hpq : ¬ (p = 0 ∧ q = 0) := by
        rintro ⟨rfl, rfl⟩
        exact hbr ⟨by simp [hx], by simp [hy]⟩
      have hpb0 : 0 ≤ p * b := mul_nonneg hp0 hb
      have hqa0 : 0 ≤ q * a := mul_nonneg hq0 ha
      have hpb1 : 1 ≤ p → b ≤ p * b := by
        intro h
        have := mul_nonneg (show 0 ≤ p - 1 by omega) hb
        have e : (p - 1) * b = p * b - b := by ring
        omega
      have hqa1 : 1 ≤ q → a ≤ q * a := by
        intro h
        have := mul_nonneg (show 0 ≤ q - 1 by omega) ha
        have e : (q - 1) * a = q * a - a := by ring
        omega
      have hpz : p = 0 → p * b = 0 := by intro h; simp [h]
      have hqz : q = 0 → q * a = 0 := by intro h; simp [h]
      have ep : (p - 1) * b = p * b - b := by ring
      have eq : (q - 1) * a = q * a - a := by ring
      have esx : sx * (p - 1) = sx * p - sx := by ring
      have esy : sy * (q - 1) = sy * q - sy := by ring
      have key : ∃ p' q', 0 ≤ p' ∧ p' ≤ a ∧ 0 ≤ q' ∧ q' ≤ b ∧
          (if err * 2 > -b then x + sx else x) = x1 - sx * p' ∧
          (if err * 2 < a then y + sy else y) = y1 - sy * q' ∧
          ((if err * 2 > -b then err + -b else err) + (if err * 2 < a then a else 0)) =
            a - b + p' * b - q' * a ∧
          p' + q' + 1 ≤ (n : Int) := by
        by_cases h1 : err * 2 > -b
        · have hp1 : 1 ≤ p := by
            by_contra hcon
            have hp : p = 0 := by omega
            have hq : 1 ≤ q := by omega
            have := hqa1 hq
            have := hpz hp
            omega
          by_cases h2 : err * 2 < a
          · have hq1 : 1 ≤ q := by
              by_contra hcon
              have hq : q = 0 := by omega
              have := hpb1 hp1
              have := hqz hq
              omega
            refine ⟨p - 1, q - 1, by omega, by omega, by omega, by omega, ?_, ?_, ?_, ?_⟩
            · rw [if_pos h1, esx]; omega
            · rw [if_pos h2, esy]; omega
            · rw [if_pos h1, if_pos h2, ep, eq]; omega
            · push_cast at hn; omega
          · refine ⟨p - 1, q, by omega, by omega, by omega, by omega, ?_, ?_, ?_, ?_⟩
            · rw [if_pos h1, esx]; omega
            · rw [if_neg h2]; omega
            · rw [if_pos h1, if_neg h2, ep]; omega
            · push_cast at hn; omega
        · have h2 : err * 2 < a := by
            by_contra hcon
            have ha0 : a = 0 := by omega
            have hb0 : b = 0 := by omega
            omega
          have hq1 : 1 ≤ q := by
            by_contra hcon
            have hq : q = 0 := by omega
            have hp : 1 ≤ p := by omega
            have := hpb1 hp
            have := hqz hq
            omega
          refine ⟨p, q - 1, by omega, by omega, by omega, by omega, ?_, ?_, ?_, ?_⟩
          · rw [if_neg h1]; omega
          · rw [if_pos h2, esy]; omega
          · rw [if_neg h1, if_pos h2, eq]; omega
          · push_cast at hn; omega
      obtain ⟨p', q', h1, h2, h3, h4, h5, h6, h7, h8⟩ := key
      obtain ⟨calls, hcalls⟩ := ih p' q' _ _ _ h1 h2 h3 h4 h5 h6 h7 h8
      exact ⟨_, by rw [hcalls]; rfl⟩

/-- The loop of `f_line` always reaches its `break` within `line_fuel`
iterations: `f_line_calls` returns a list of calls for all end points. -/
theorem f_line_calls_terminates (c : Nat) (x0 y0 x1 y1 : Int) :
    ∃ calls, f_line_calls c x0 y0 x1 y1 = some calls := by
  unfold f_line_calls
  apply line_loop_terminates c x1 y1 (abs (x1 - x0)) (abs (y1 - y0)) _ _
    (c_abs_nonneg _) (c_abs_nonneg _) _ (abs (x1 - x0)) (abs (y1 - y0)) x0 y0 _
    (c_abs_nonneg _) (le_refl _) (c_abs_nonneg _) (le_refl _)
  · unfold abs; split_ifs <;> omega
  · unfold abs; split_ifs <;> omega
  · ring
  · have := c_abs_nonneg (x1 - x0)
    have := c_abs_nonneg (y1 - y0)
    simp only [line_fuel]
    omega

/-! ## The shape of a line -/

theorem line_cons_props (c : Nat) (x y x' y' x1 y1 m : Int) (rest : List PixelCall)
    (hlen : (rest.length : Int) = m)
    (hhead : rest.head? = some (PixelCall.mk x' y' c))
    (hlast : rest.getLast? = some (PixelCall.mk x1 y1 c))
    (hchain : List.Chain' Adjacent rest)
    (hadj : abs (x' - x) ≤ 1 ∧ abs (y' - y) ≤ 1)
    (hfresh : ∀ u ∈ rest, ¬ (u.x = x ∧ u.y = y))
    (hnodup : (rest.map fun u => (u.x, u.y)).Nodup) :
    (((PixelCall.mk x y c :: rest).length : Nat) : Int) = m + 1 ∧
    (PixelCall.mk x y c :: rest).head? = some (PixelCall.mk x y c) ∧
    (PixelCall.mk x y c :: rest).getLast? = some (PixelCall.mk x1 y1 c) ∧
    List.Chain' Adjacent (PixelCall.mk x y c :: rest) ∧
    ((PixelCall.mk x y c :: rest).map fun u => (u.x, u.y)).Nodup := by
  cases rest with
  | nil => simp at hhead
  | cons r0 rs =>
    simp only [List.head?_cons, Option.some.injEq] at hhead
    subst hhead
    refine ⟨?_, rfl, ?_, ?_, ?_⟩
    · simp only [List.length_cons] at hlen ⊢
      push_cast at hlen ⊢
      omega
    · rw [List.getLast?_cons_cons]
      exact hlast
    · rw [List.chain'_cons]
      exact ⟨hadj, hchain⟩
    · rw [List.map_cons, List.nodup_cons]
      refine ⟨?_, hnodup⟩
      intro hmem
      rw [List.mem_map] at hmem
      obtain ⟨u, hu, heq⟩ := hmem
      simp only [Prod.mk.injEq] at heq
      exact hfresh u hu heq

/-- The loop of `f_line` on a line that is at least as wide as high: every
iteration steps `x0`, so `p + 1` calls are made when `p` x-steps remain. -/
theorem line_loop_xmajor (c : Nat) (x1 y1 a b sx sy : Int) (ha : 0 < a) (hb : 0 ≤ b)
    (hba : b ≤ a) (hsx : sx = 1 ∨ sx = -1) (hsy : sy = 1 ∨ sy = -1) :
    ∀ (n : Nat) (p q x y err : Int), 0 ≤ p → 0 ≤ q →
      x = x1 - sx * p → y = y1 - sy * q → err = a - b + p * b - q * a →
      -b < 2 * err → 2 * err < 3 * a - 2 * b → p + 1 ≤ (n : Int) →
      ∃ calls, line_loop c x1 y1 a (-b) sx sy n x y err = some calls ∧
        (calls.length : Int) = p + 1 ∧
        calls.head? = some (PixelCall.mk x y c) ∧
        calls.getLast? = some (PixelCall.mk x1 y1 c) ∧
        List.Chain' Adjacent calls ∧
        (calls.map fun u => (u.x, u.y)).Nodup ∧
        (∀ u ∈ calls, 0 ≤ sx * (u.x - x)) := by
  intro n
  induction n with
  | zero => intro p q x y err hp0 _ _ _ _ _ _ hn; omega
  | succ n ih =>
    intro p q x y err hp0 hq0 hx hy herr hlo hhi hn
    rw [line_loop_succ]
    have hpb0 : 0 ≤ p * b := mul_nonneg hp0 hb
    have hqa0 : 0 ≤ q * a := mul_nonneg hq0 (le_of_lt ha)
    have hpb1 : 1 ≤ p → b ≤ p * b := by
      intro h
      have := mul_nonneg (show 0 ≤ p - 1 by omega) hb
      have e : (p - 1) * b = p * b - b := by ring
      omega
    have hqa1 : 1 ≤ q → a ≤ q * a := by
      intro h
      have := mul_nonneg (show 0 ≤ q - 1 by omega) (le_of_lt ha)
      have e : (q - 1) * a = q * a - a := by ring
      omega
    have hpz : p = 0 → p * b = 0 := by intro h; simp [h]
    have hqz : q = 0 → q * a = 0 := by intro h; simp [h]
    have ep : (p - 1) * b = p * b - b := by ring
    have eq : (q - 1) * a = q * a - a := by ring
    by_cases hp : p = 0
    · have hq : q = 0 := by
        by_contra hcon
        have := hqa1 (by omega)
        have := hpz hp
        omega
      subst hp hq
      have hbr : x = x1 ∧ y = y1 := ⟨by simp [hx], by simp [hy]⟩
      rw [if_pos hbr]
      obtain ⟨rfl, rfl⟩ := hbr
      refine ⟨_, rfl, by simp, rfl, rfl, List.chain'_singleton _, by simp, ?_⟩
      intro u hu
      simp only [List.mem_singleton] at hu
      subst hu
      simp
    · have hp1 : 1 ≤ p := by omega
      have hbr : ¬ (x = x1 ∧ y = y1) := by
        rintro ⟨h, _⟩
        rcases hsx with rfl | rfl <;> omega
      rw [if_neg hbr]
      have h1 : err * 2 > -b := by omega
      simp only [if_pos h1]
      have esx : sx * (p - 1) = sx * p - sx := by ring
      have esy : sy * (q - 1) = sy * q - sy := by ring
      have hsxabs : abs (x + sx - x) ≤ 1 := by
        rcases hsx with rfl | rfl <;> simp [abs]
      by_cases h2 : err * 2 < a
      · have hq1 : 1 ≤ q := by
          by_contra hcon
          have := hpb1 hp1
          have := hqz (by omega)
          omega
        simp only [if_pos h2]
        obtain ⟨rest, hrest, hlen, hhead, hlast, hchain, hnodup, hmono⟩ :=
          ih (p - 1) (q - 1) (x + sx) (y + sy) (err + -b + a) (by omega) (by omega)
            (by rw [esx]; omega) (by rw [esy]; omega) (by rw [ep, eq]; omega)
            (by omega) (by omega) (by push_cast at hn; omega)
        have hsyabs : abs (y + sy - y) ≤ 1 := by
          rcases hsy with rfl | rfl <;> simp [abs]
        have hfresh : ∀ u ∈ rest, ¬ (u.x = x ∧ u.y = y) := by
          rintro u hu ⟨h, _⟩
          have := hmono u hu
          rcases hsx with rfl | rfl <;> omega
        obtain ⟨k1, k2, k3, k4, k5⟩ := line_cons_props c x y (x + sx) (y + sy) x1 y1 _ rest
          hlen hhead hlast hchain ⟨hsxabs, hsyabs⟩ hfresh hnodup
        refine ⟨_, by rw [hrest]; rfl, by rw [k1]; ring, k2, k3, k4, k5, ?_⟩
        intro u hu
        rcases List.mem_cons.mp hu with rfl | hu'
        · simp
        · have := hmono u hu'
          rcases hsx with rfl | rfl <;> omega
      · simp only [if_neg h2]
        obtain ⟨rest, hrest, hlen, hhead, hlast, hchain, hnodup, hmono⟩ :=
          ih (p - 1) q (x + sx) y (err + -b + 0) (by omega) (by omega)
            (by rw [esx]; omega) hy (by rw [ep]; omega)
            (by omega) (by omega) (by push_cast at hn; omega)
        have hyabs : abs (y - y) ≤ 1 := by simp [abs]
        have hfresh : ∀ u ∈ rest, ¬ (u.x = x ∧ u.y = y) := by
          rintro u hu ⟨h, _⟩
          have := hmono u hu
          rcases hsx with rfl | rfl <;> omega
        obtain ⟨k1, k2, k3, k4, k5⟩ := line_cons_props c x y (x + sx) y x1 y1 _ rest
          hlen hhead hlast hchain ⟨hsxabs, hyabs⟩ hfresh hnodup
        refine ⟨_, by rw [hrest]; rfl, by rw [k1]; ring, k2, k3, k4, k5, ?_⟩
        intro u hu
        rcases List.mem_cons.mp hu with rfl | hu'
        · simp
        · have := hmono u hu'
          rcases hsx with rfl | rfl <;> omega

/-- The loop of `f_line` on a line that is higher than wide: every iteration
steps `y0`, so `q + 1` calls are made when `q` y-steps remain. -/
theorem line_loop_ymajor (c : Nat) (x1 y1 a b sx sy : Int) (ha : 0 ≤ a) (hb : 0 < b)
    (hab : a < b) (hsx : sx = 1 ∨ sx = -1) (hsy : sy = 1 ∨ sy = -1) :
    ∀ (n : Nat) (p q x y err : Int), 0 ≤ p → 0 ≤ q →
      x = x1 - sx * p → y = y1 - sy * q → err = a - b + p * b - q * a →
      2 * a - 3 * b < 2 * err → 2 * err < a → q + 1 ≤ (n : Int) →
      ∃ calls, line_loop c x1 y1 a (-b) sx sy n x y err = some calls ∧
        (calls.length : Int) = q + 1 ∧
        calls.head? = some (PixelCall.mk x y c) ∧
        calls.getLast? = some (PixelCall.mk x1 y1 c) ∧
        List.Chain' Adjacent calls ∧
        (calls.map fun u => (u.x, u.y)).Nodup ∧
        (∀ u ∈ calls, 0 ≤ sy * (u.y - y)) := by
  intro n
  induction n with
  | zero => intro p q x y err _ hq0 _ _ _ _ _ hn; omega
  | succ n ih =>
    intro p q x y err hp0 hq0 hx hy herr hlo hhi hn
    rw [line_loop_succ]
    have hpb0 : 0 ≤ p * b := mul_nonneg hp0 (le_of_lt hb)
    have hqa0 : 0 ≤ q * a := mul_nonneg hq0 ha
    have hpb1 : 1 ≤ p → b ≤ p * b := by
      intro h
      have := mul_nonneg (show 0 ≤ p - 1 by omega) (le_of_lt hb)
      have e : (p - 1) * b = p * b - b := by ring
      omega
    have hqa1 : 1 ≤ q → a ≤ q * a := by
      intro h
      have := mul_nonneg (show 0 ≤ q - 1 by omega) ha
      have e : (q - 1) * a = q * a - a := by ring
      omega
    have hpz : p = 0 → p * b = 0 := by intro h; simp [h]
    have hqz : q = 0 → q * a = 0 := by intro h; simp [h]
    have ep : (p - 1) * b = p * b - b := by ring
    have eq : (q - 1) * a = q * a - a := by ring
    by_cases hq : q = 0
    · have hp : p = 0 := by
        by_contra hcon
        have := hpb1 (by omega)
        have := hqz hq
        omega
      subst hp hq
      have hbr : x = x1 ∧ y = y1 := ⟨by simp [hx], by simp [hy]⟩
      rw [if_pos hbr]
      obtain ⟨rfl, rfl⟩ := hbr
      refine ⟨_, rfl, by simp, rfl, rfl, List.chain'_singleton _, by simp, ?_⟩
      intro u hu
      simp only [List.mem_singleton] at hu
      subst hu
      simp
    · have hq1 : 1 ≤ q := by omega
      have hbr : ¬ (x = x1 ∧ y = y1) := by
        rintro ⟨_, h⟩
        rcases hsy with rfl | rfl <;> omega
      rw [if_neg hbr]
      have h2 : err * 2 < a := by omega
      simp only [if_pos h2]
      have esx : sx * (p - 1) = sx * p - sx := by ring
      have esy : sy * (q - 1) = sy * q - sy := by ring
      have hsyabs : abs (y + sy - y) ≤ 1 := by
        rcases hsy with rfl | rfl <;> simp [abs]
      by_cases h1 : err * 2 > -b
      · have hp1 : 1 ≤ p := by
          by_contra hcon
          have := hqa1 hq1
          have := hpz (by omega)
          omega
        simp only [if_pos h1]
        obtain ⟨rest, hrest, hlen, hhead, hlast, hchain, hnodup, hmono⟩ :=
          ih (p - 1) (q - 1) (x + sx) (y + sy) (err + -b + a) (by omega) (by omega)
            (by rw [esx]; omega) (by rw [esy]; omega) (by rw [ep, eq]; omega)
            (by omega) (by omega) (by push_cast at hn; omega)
        have hsxabs : abs (x + sx - x) ≤ 1 := by
          rcases hsx with rfl | rfl <;> simp [abs]
        have hfresh : ∀ u ∈ rest, ¬ (u.x = x ∧ u.y = y) := by
          rintro u hu ⟨_, h⟩
          have := hmono u hu
          rcases hsy with rfl | rfl <;> omega
        obtain ⟨k1, k2, k3, k4, k5⟩ := line_cons_props c x y (x + sx) (y + sy) x1 y1 _ rest
          hlen hhead hlast hchain ⟨hsxabs, hsyabs⟩ hfresh hnodup
        refine ⟨_, by rw [hrest]; rfl, by rw [k1]; ring, k2, k3, k4, k5, ?_⟩
        intro u hu
        rcases List.mem_cons.mp hu with rfl | hu'
        · simp
        · have := hmono u hu'
          rcases hsy with rfl | rfl <;> omega
      · simp only [if_neg h1]
        obtain ⟨rest, hrest, hlen, hhead, hlast, hchain, hnodup, hmono⟩ :=
          ih p (q - 1) x (y + sy) (err + a) (by omega) (by omega)
            hx (by rw [esy]; omega) (by rw [eq]; omega)
            (by omega) (by omega) (by push_cast at hn; omega)
        have hxabs : abs (x - x) ≤ 1 := by simp [abs]
        have hfresh : ∀ u ∈ rest, ¬ (u.x = x ∧ u.y = y) := by
          rintro u hu ⟨_, h⟩
          have := hmono u hu
          rcases hsy with rfl | rfl <;> omega
        obtain ⟨k1, k2, k3, k4, k5⟩ := line_cons_props c x y x (y + sy) x1 y1 _ rest
          hlen hhead hlast hchain ⟨hxabs, hsyabs⟩ hfresh hnodup
        refine ⟨_, by rw [hrest]; rfl, by rw [k1]; ring, k2, k3, k4, k5, ?_⟩
        intro u hu
        rcases List.mem_cons.mp hu with rfl | hu'
        · simp
        · have := hmono u hu'
          rcases hsy with rfl | rfl <;> omega

/-! ## The event loop and the window fitter -/

/-- The update loop in closed form: with `delta_ticks / 33` iterations granted
it finishes, having made `delta_ticks / 33` updates with consecutive frame
numbers (modulo `2^32`), and `delta_ticks % 33` is left over. -/
theorem update_loop_spec : ∀ (n d f : Nat), d < 4294967296 → f < 4294967296 → n = d / 33 →
    update_loop true n d f =
      some (d % 33, (f + d / 33) % 4294967296,
        (List.range (d / 33)).map (fun i => LoopEvent.on_update ((f + 1 + i) % 4294967296))) := by
  have h33 : PIX_FPS_TICKS = 33 := rfl
  intro n
  induction n with
  | zero =>
    intro d f _ hf hn
    have h : ¬ d ≥ PIX_FPS_TICKS := by omega
    have h1 : d % 33 = d := by omega
    have h2 : f % 4294967296 = f := by omega
    simp only [update_loop, if_neg h, ← hn, h1, add_zero, h2, List.range_zero, List.map_nil]
  | succ n ih =>
    intro d f hd hf hn
    have h : d ≥ PIX_FPS_TICKS := by omega
    have hsub : toUint32 (d - PIX_FPS_TICKS) = d - 33 := by
      simp only [toUint32, h33]; omega
    simp only [update_loop, if_pos h, hsub, if_true]
    rw [ih (d - 33) (toUint32 (f + 1)) (by omega) (by simp only [toUint32]; omega) (by omega)]
    have hq : d / 33 = (d - 33) / 33 + 1 := by omega
    rw [hq, List.range_succ_eq_map]
    simp only [toUint32, Option.map_some', List.map_cons, List.map_map, List.singleton_append]
    refine congrArg some (Prod.ext (by simp only []; omega) (Prod.ext (by simp only []; omega) ?_))
    simp only []
    refine congrArg₂ _ (by simp) ?_
    apply List.map_congr_left
    intro i _
    simp only [Function.comp]
    congr 1
    omega

/-- Whatever the halving loop returns fits in the available area. -/
theorem halve_loop_fits (dm : SDL_DisplayMode) : ∀ (fuel : Nat) (w h : Int) (r : Int × Int),
    halve_loop dm fuel w h = some r → r.1 ≤ dm.w ∧ r.2 ≤ dm.h := by
  intro fuel
  induction fuel with
  | zero =>
    intro w h r hr
    simp only [halve_loop] at hr
    split_ifs at hr with hc
    simp only [Option.some.injEq] at hr
    subst hr
    simp only []
    omega
  | succ n ih =>
    intro w h r hr
    simp only [halve_loop] at hr
    split_ifs at hr with hc
    · exact ih _ _ _ hr
    · simp only [Option.some.injEq] at hr
      subst hr
      simp only []
      omega

/-- The halving loop finishes within `fuel` iterations when the available area
is not negative and both sizes are below `2 ^ fuel`. -/
theorem halve_loop_terminates (dm : SDL_DisplayMode) (hdw : 0 ≤ dm.w) (hdh : 0 ≤ dm.h) :
    ∀ (fuel : Nat) (w h : Int), 0 ≤ w → 0 ≤ h → w < 2 ^ fuel → h < 2 ^ fuel →
      ∃ r, halve_loop dm fuel w h = some r := by
  intro fuel
  induction fuel with
  | zero =>
    intro w h hw hh hw2 hh2
    simp only [pow_zero] at hw2 hh2
    have hc : ¬ (w > dm.w ∨ h > dm.h) := by omega
    exact ⟨(w, h), by simp only [halve_loop, if_neg hc]⟩
  | succ n ih =>
    intro w h hw hh hw2 hh2
    simp only [halve_loop]
    by_cases hc : w > dm.w ∨ h > dm.h
    · rw [if_pos hc]
      rw [pow_succ] at hw2 hh2
      have e1 : Int.tdiv w 2 = w / 2 := Int.tdiv_eq_ediv hw (by omega)
      have e2 : Int.tdiv h 2 = h / 2 := Int.tdiv_eq_ediv hh (by omega)
      rw [e1, e2]
      exact ih _ _ (by omega) (by omega) (by omega) (by omega)
    · exact ⟨(w, h), by rw [if_neg hc]⟩

/-- In the scaling branch the common factor is at least 1 and the scaled size
fits in the available area. -/
theorem scale_fits (a w : Int) (k : Int) (hw : 0 < w) (ha : w ≤ a)
    (hk : k ≤ Int.tdiv a w) : w * k ≤ a ∧ 1 ≤ Int.tdiv a w := by
  have e : Int.tdiv a w = a / w := Int.tdiv_eq_ediv (by omega) (by omega)
  rw [e] at hk ⊢
  have h1 : w * (a / w) ≤ a := Int.mul_ediv_self_le (by omega)
  have h2 : w * k ≤ w * (a / w) := mul_le_mul_of_nonneg_left hk (by omega)
  have h3 : 1 ≤ a / w := by
    have := Int.ediv_le_ediv hw ha
    rw [Int.ediv_self (by omega)] at this
    exact this
  exact ⟨by omega, h3⟩

/-- With a desktop of at least 256×256 the window fitter returns a size for
every canvas of at most 1024×1024, within 11 iterations of the halving loop. -/
theorem fit_window_terminates (dm : SDL_DisplayMode) (w h : Int) (fuel : Nat)
    (hw : 1 ≤ w ∧ w ≤ 1024) (hh : 1 ≤ h ∧ h ≤ 1024)
    (hdw : PIX_WINDOW_WIDTH ≤ dm.w) (hdh : PIX_WINDOW_HEIGHT ≤ dm.h) (hfuel : 11 ≤ fuel) :
    ∃ win, fit_window fuel (some dm) w h = some win := by
  have hW : PIX_WINDOW_WIDTH = 256 := rfl
  have hH : PIX_WINDOW_HEIGHT = 256 := rfl
  simp only [fit_window]
  split_ifs with hc
  · have hp : (2 : Int) ^ 11 ≤ 2 ^ fuel := pow_le_pow_right₀ (by norm_num) hfuel
    have hp' : (2 : Int) ^ 11 = 2048 := by norm_num
    exact halve_loop_terminates _ (by simp only []; omega) (by simp only []; omega) fuel w h
      (by omega) (by omega) (by omega) (by omega)
  · exact ⟨_, rfl⟩
  · exact ⟨_, rfl⟩

/-- Whatever the window fitter returns for a reported desktop fits in the
available area. -/
theorem fit_window_fits (dm : SDL_DisplayMode) (w h : Int) (fuel : Nat) (win : Int × Int)
    (hw : 1 ≤ w) (hh : 1 ≤ h) (hfit : fit_window fuel (some dm) w h = some win) :
    win.1 ≤ dm.w - PIX_WINDOW_WIDTH ∧ win.2 ≤ dm.h - PIX_WINDOW_HEIGHT := by
  simp only [fit_window] at hfit
  split_ifs at hfit with hc hlt
  · exact halve_loop_fits _ _ _ _ _ hfit
  · simp only [Option.some.injEq] at hfit
    subst hfit
    simp only [not_or, not_lt] at hc
    have h1 := scale_fits (dm.w - PIX_WINDOW_WIDTH) w _ (by omega) hc.1 (le_refl _)
    have h2 := scale_fits (dm.h - PIX_WINDOW_HEIGHT) h _ (by omega) hc.2 (le_of_lt hlt)
    exact ⟨h1.1, h2.1⟩
  · simp only [Option.some.injEq] at hfit
    subst hfit
    simp only [not_or, not_lt] at hc hlt
    have h1 := scale_fits (dm.w - PIX_WINDOW_WIDTH) w _ (by omega) hc.1 hlt
    have h2 := scale_fits (dm.h - PIX_WINDOW_HEIGHT) h _ (by omega) hc.2 (le_refl _)
    exact ⟨h1.1, h2.1⟩

/-! ## Sequences of pixel writes -/

theorem draw_pixel_of_not_inClip (s : State) (x y : Int) (c : Nat) (h : ¬ inClip s x y) :
    draw_pixel s x y c = s := by
  unfold draw_pixel
  cases s.surface8 <;> simp [h]

theorem draw_pixel_of_inClip (s : State) (surf : Surface) (x y : Int) (c : Nat)
    (hs : s.surface8 = some surf) (h : inClip s x y) :
    draw_pixel s x y c = { s with
      surface8 := some { surf with
        pixels := storeByte surf.pixels (surf.pitch * y + x)
          (s.palette_mapping.getD (c % 16) 0) }
      screen_modified := -1 } := by
  simp only [draw_pixel, hs, h, if_true]

theorem length_storeByte (p : List Nat) (off : Int) (v : Nat) :
    (storeByte p off v).length = p.length := by
  unfold storeByte
  split_ifs <;> simp

/-- The effect of a sequence of `draw_pixel` calls on a state with a surface:
only the pixel bytes and `screen_modified` change; a byte changes only at the
offset of a call inside the clip rectangle; when all calls map to the value
`v`, every offset hit inside the clip rectangle holds `v` afterwards; and the
stores executed are those of the calls inside the clip rectangle. -/
theorem draw_calls_form (calls : List PixelCall) : ∀ (s : State) (surf : Surface),
    s.surface8 = some surf →
    ∃ P M, draw_calls s calls =
        { s with surface8 := some { surf with pixels := P }, screen_modified := M } ∧
      P.length = surf.pixels.length ∧
      (∀ off, (∀ call ∈ calls, inClip s call.x call.y → surf.pitch * call.y + call.x ≠ off) →
        loadByte P off = loadByte surf.pixels off) ∧
      (∀ (off : Int) (v : Nat), 0 ≤ off → off < surf.pixels.length →
        (∃ call ∈ calls, inClip s call.x call.y ∧ surf.pitch * call.y + call.x = off) →
        (∀ call ∈ calls, s.palette_mapping.getD (call.color % 16) 0 = v) →
        loadByte P off = some v) ∧
      ((∃ call ∈ calls, inClip s call.x call.y) → M = -1) ∧
      ((∀ call ∈ calls, ¬ inClip s call.x call.y) → M = s.screen_modified) ∧
      (∀ st ∈ draw_calls_stores s calls,
        inClip s st.x st.y ∧ st.offset = surf.pitch * st.y + st.x) := by
  induction calls with
  | nil =>
    intro s surf hs
    refine ⟨surf.pixels, s.screen_modified, ?_, rfl, fun _ _ => rfl, ?_, ?_, fun _ => rfl, ?_⟩
    · simp only [draw_calls, List.foldl_nil]
      rw [← hs]
    · rintro off v _ _ ⟨call, hmem, _⟩
      simp at hmem
    · rintro ⟨call, hmem, _⟩
      simp at hmem
    · intro st hst
      simp [draw_calls_stores] at hst
  | cons c rest ih =>
    intro s surf hs
    have hstep : draw_calls s (c :: rest) = draw_calls (draw_pixel s c.x c.y c.color) rest := rfl
    by_cases hclip : inClip s c.x c.y
    · have hdp := draw_pixel_of_inClip s surf c.x c.y c.color hs hclip
      obtain ⟨P, M, hP, hlen, hsame, hval, hM, hM0, hst⟩ := ih (draw_pixel s c.x c.y c.color)
        { surf with pixels := (storeByte surf.pixels (surf.pitch * c.y + c.x)
            (s.palette_mapping.getD (c.color % 16) 0)) } (by rw [hdp])
      have hclip' : ∀ a b, inClip (draw_pixel s c.x c.y c.color) a b ↔ inClip s a b := by
        intro a b; rw [hdp]; exact Iff.rfl
      have hmap : (draw_pixel s c.x c.y c.color).palette_mapping = s.palette_mapping := by
        rw [hdp]
      have hsm : (draw_pixel s c.x c.y c.color).screen_modified = -1 := by
        rw [hdp]
      simp only [hclip', hmap, length_storeByte, hsm] at hsame hval hM hM0 hst hlen
      refine ⟨P, M, ?_, hlen, ?_, ?_, ?_, ?_, ?_⟩
      · rw [hstep, hP, hdp]
      · intro off hoff
        rw [hsame off (fun call hmem => hoff call (List.mem_cons_of_mem _ hmem))]
        exact loadByte_storeByte_other _ _ _ _ (hoff c (List.mem_cons_self _ _) hclip)
      · intro off v h0 hlt hex hall
        by_cases hrest : ∃ call ∈ rest, inClip s call.x call.y ∧ surf.pitch * call.y + call.x = off
        · exact hval off v h0 hlt hrest (fun call hmem => hall call (List.mem_cons_of_mem _ hmem))
        · have hc : surf.pitch * c.y + c.x = off := by
            obtain ⟨call, hmem, hin, heq⟩ := hex
            rcases List.mem_cons.mp hmem with rfl | hmem'
            · exact heq
            · exact absurd ⟨call, hmem', hin, heq⟩ hrest
          rw [hsame off (fun call hmem hin heq => hrest ⟨call, hmem, hin, heq⟩), hc,
            hall c (List.mem_cons_self _ _)]
          exact loadByte_storeByte_same _ _ _ h0 hlt
      · intro _
        by_cases hrest : ∃ call ∈ rest, inClip s call.x call.y
        · exact hM hrest
        · exact hM0 (fun call hmem hin => hrest ⟨call, hmem, hin⟩)
      · intro hall
        exact absurd hclip (hall c (List.mem_cons_self _ _))
      · intro st hmem
        simp only [draw_calls_stores, draw_pixel_store, hs, hclip, if_true, Option.toList_some,
          List.singleton_append, List.mem_cons] at hmem
        rcases hmem with rfl | hmem
        · exact ⟨hclip, rfl⟩
        · exact hst st hmem
    · have hdp := draw_pixel_of_not_inClip s c.x c.y c.color hclip
      obtain ⟨P, M, hP, hlen, hsame, hval, hM, hM0, hst⟩ := ih s surf hs
      refine ⟨P, M, ?_, hlen, ?_, ?_, ?_, ?_, ?_⟩
      · rw [hstep, hdp, hP]
      · intro off hoff
        exact hsame off (fun call hmem => hoff call (List.mem_cons_of_mem _ hmem))
      · intro off v h0 hlt hex hall
        refine hval off v h0 hlt ?_ (fun call hmem => hall call (List.mem_cons_of_mem _ hmem))
        obtain ⟨call, hmem, hin, heq⟩ := hex
        rcases List.mem_cons.mp hmem with rfl | hmem'
        · exact absurd hin hclip
        · exact ⟨call, hmem', hin, heq⟩
      · rintro ⟨call, hmem, hin⟩
        rcases List.mem_cons.mp hmem with rfl | hmem'
        · exact absurd hin hclip
        · exact hM ⟨call, hmem', hin⟩
      · intro hall
        exact hM0 (fun call hmem => hall call (List.mem_cons_of_mem _ hmem))
      · intro st hmem
        simp only [draw_calls_stores, draw_pixel_store, hs, hclip, if_false, Option.toList_none,
          List.nil_append, hdp] at hmem
        exact hst st hmem


theorem mem_loopRange (v lo hi : Int) : v ∈ loopRange lo hi ↔ lo ≤ v ∧ v ≤ hi := by
  simp only [loopRange, List.mem_map, List.mem_range]
  constructor
  · rintro ⟨k, hk, rfl⟩
    simp only [Int.ofNat_eq_coe]
    omega
  · intro h
    exact ⟨(v - lo).toNat, by omega, by simp only [Int.ofNat_eq_coe]; omega⟩

theorem mem_f_clear_calls (s : State) (color : Nat) (call : PixelCall) :
    call ∈ f_clear_calls s color ↔ inClip s call.x call.y ∧ call.color = color := by
  simp only [f_clear_calls, List.mem_flatMap, List.mem_map, mem_loopRange, inClip]
  constructor
  · rintro ⟨y, hy, x, hx, rfl⟩
    exact ⟨⟨hx.1, hx.2, hy.1, hy.2⟩, rfl⟩
  · rintro ⟨⟨h1, h2, h3, h4⟩, rfl⟩
    exact ⟨call.y, ⟨h3, h4⟩, call.x, ⟨h1, h2⟩, rfl⟩

/-- On a well-formed framebuffer every sequence of `draw_pixel` calls writes
inside the clip rectangle only, and leaves the framebuffer well formed. -/
theorem writesInsideClip_of_wellFormed (s : State) (hwf : WellFormed s)
    (calls : List PixelCall) :
    WritesInsideClip s calls ∧ WellFormed (draw_calls s calls) ∧
    (draw_calls s calls).clip_tl = s.clip_tl ∧ (draw_calls s calls).clip_br = s.clip_br := by
  unfold WellFormed at hwf
  cases hs : s.surface8 with
  | none => simp [hs] at hwf
  | some surf =>
    simp only [hs] at hwf
    obtain ⟨hw, hh, hp, hlen, hx0, hx1, hy0, hy1, hmap⟩ := hwf
    obtain ⟨P, M, hP, hPlen, hsame, _, _, _, hst⟩ := draw_calls_form calls s surf hs
    refine ⟨⟨?_, ?_⟩, ?_, ?_, ?_⟩
    · intro st hmem
      obtain ⟨hin, hoff⟩ := hst st hmem
      obtain ⟨h1, h2, h3, h4⟩ := hin
      have hb := offset_in_buffer surf.pitch surf.w surf.h st.x st.y hp (by omega) (by omega)
      simp only [rowPitch, bufferSize, hs]
      exact ⟨⟨h1, h2, h3, h4⟩, hoff, by omega, by omega⟩
    · intro x y hcv hout
      simp only [inCanvas, hs] at hcv
      rw [hP]
      simp only [cell, hs]
      apply hsame
      intro call _ hin heq
      obtain ⟨h1, h2, h3, h4⟩ := hin
      have := offset_injective surf.pitch call.x call.y x y (by omega) (by omega) heq
      apply hout
      rw [← this.1, ← this.2]
      exact ⟨h1, h2, h3, h4⟩
    · rw [hP]
      simp only [WellFormed]
      exact ⟨hw, hh, hp, by rw [hPlen]; exact hlen, hx0, hx1, hy0, hy1, hmap⟩
    · rw [hP]
    · rw [hP]

/-- With a negative available width the condition of the halving loop holds
for every width that is not negative, so the loop never finishes: whatever
the bound on the iterations, no size is returned. -/
theorem halve_loop_diverges_w (dm : SDL_DisplayMode) (hdw : dm.w < 0) :
    ∀ (fuel : Nat) (w h : Int), 0 ≤ w → halve_loop dm fuel w h = none := by
  intro fuel
  induction fuel with
  | zero =>
    intro w h hw
    have hc : w > dm.w ∨ h > dm.h := Or.inl (by omega)
    simp only [halve_loop, if_pos hc]
  | succ n ih =>
    intro w h hw
    have hc : w > dm.w ∨ h > dm.h := Or.inl (by omega)
    simp only [halve_loop, if_pos hc]
    apply ih
    rw [Int.tdiv_eq_ediv hw (by omega)]
    omega

/-- The same with a negative available height. -/
theorem halve_loop_diverges_h (dm : SDL_DisplayMode) (hdh : dm.h < 0) :
    ∀ (fuel : Nat) (w h : Int), 0 ≤ h → halve_loop dm fuel w h = none := by
  intro fuel
  induction fuel with
  | zero =>
    intro w h hh
    have hc : w > dm.w ∨ h > dm.h := Or.inr (by omega)
    simp only [halve_loop, if_pos hc]
  | succ n ih =>
    intro w h hh
    have hc : w > dm.w ∨ h > dm.h := Or.inr (by omega)
    simp only [halve_loop, if_pos hc]
    apply ih
    rw [Int.tdiv_eq_ediv hh (by omega)]
    omega

/-! ## Claims -/

/-- C1 (the code at the failing input): the `swap` macro leaves both variables
as they were, so `rect(c, 5,5,1,1, fill=true)` runs its loops from 5 up to 1:
it makes no `draw_pixel` call and returns every state unchanged, whereas
`rect(c, 1,1,5,5, fill=true)` makes 25 calls. -/
theorem rect_reversed_corners_paints_nothing (s : State) (c : Int) :
    swap 5 1 = (5, 1) ∧
    f_rect_calls (toUint8 c) 5 5 1 1 true = [] ∧
    f_rect s c 5 5 1 1 true = s ∧
    (f_rect_calls (toUint8 c) 1 1 5 5 true).length = 25 := by
  have h : f_rect_calls (toUint8 c) 5 5 1 1 true = [] := by
    simp [f_rect_calls, swap, loopRange_empty]
  refine ⟨rfl, h, ?_, ?_⟩
  · simp [f_rect, h, draw_calls_nil]
  · have h5 : ∀ (f : Int → List PixelCall), (∀ y, (f y).length = 5) →
        ((loopRange 1 5).flatMap f).length = 25 := by
      intro f hf
      simp [loopRange, List.range_succ, hf]
    simp only [f_rect_calls]
    apply h5
    intro y
    simp only [List.length_map, length_loopRange]
    rfl

/-- C2 (counterexample): on the sample 2×2 framebuffer, whose clip rectangle
contains `(0,0)`, `circle(1, 0,0,0, fill=false)` makes no `draw_pixel` call and
leaves the framebuffer, in particular the centre cell, as it was. -/
theorem circle_radius_zero_outline_counterexample :
    inClip sampleState 0 0 ∧
    f_circle_calls 1 0 0 0 false = [] ∧
    f_circle sampleState 1 0 0 0 false = sampleState ∧
    cell (f_circle sampleState 1 0 0 0 false) 0 0 = some 0 := by
  decide

/-- C2 (amended): for every colour and centre, the outline circle of radius 0
tests the squared distance against the empty band `[(0-1)², 0²] = [1, 0]`: it
makes no `draw_pixel` call and returns the state unchanged; the filled circle
of radius 0 makes exactly one call, at the centre. -/
theorem circle_radius_zero (s : State) (c cx cy : Int) :
    f_circle_calls (toUint8 c) cx cy 0 false = [] ∧
    f_circle s c cx cy 0 false = s ∧
    f_circle_calls (toUint8 c) cx cy 0 true = [PixelCall.mk cx cy (toUint8 c)] ∧
    f_circle s c cx cy 0 true = draw_pixel s cx cy (toUint8 c) := by
  have h0 : f_circle_calls (toUint8 c) cx cy 0 false = [] := by
    simp [f_circle_calls, loopRange_single]
  have h1 : f_circle_calls (toUint8 c) cx cy 0 true = [PixelCall.mk cx cy (toUint8 c)] := by
    simp [f_circle_calls, loopRange_single]
  refine ⟨h0, ?_, h1, ?_⟩
  · simp [f_circle, h0, draw_calls_nil]
  · simp [f_circle, h1, draw_calls]

/-- C3 (counterexample): `line(1, 0,0, 2,1)` passes `(0,0), (1,0), (2,1)` to
`draw_pixel`, `line(1, 2,1, 0,0)` passes `(2,1), (1,1), (0,0)`: the coordinate
`(1,0)` is in the first set and not in the second. -/
theorem line_not_symmetric :
    f_line_calls 1 0 0 2 1 =
      some [PixelCall.mk 0 0 1, PixelCall.mk 1 0 1, PixelCall.mk 2 1 1] ∧
    f_line_calls 1 2 1 0 0 =
      some [PixelCall.mk 2 1 1, PixelCall.mk 1 1 1, PixelCall.mk 0 0 1] ∧
    ¬ (∀ p q, f_line_calls 1 0 0 2 1 = some p → f_line_calls 1 2 1 0 0 = some q →
        ∀ x y, (∃ call ∈ p, call.x = x ∧ call.y = y) ↔ (∃ call ∈ q, call.x = x ∧ call.y = y)) := by
  have h1 : f_line_calls 1 0 0 2 1 =
      some [PixelCall.mk 0 0 1, PixelCall.mk 1 0 1, PixelCall.mk 2 1 1] := by decide
  have h2 : f_line_calls 1 2 1 0 0 =
      some [PixelCall.mk 2 1 1, PixelCall.mk 1 1 1, PixelCall.mk 0 0 1] := by decide
  refine ⟨h1, h2, fun h => ?_⟩
  have h3 := (h _ _ h1 h2 1 0).mp ⟨PixelCall.mk 1 0 1, by simp, rfl, rfl⟩
  obtain ⟨call, hmem, hx, hy⟩ := h3
  simp only [List.mem_cons, List.mem_singleton, List.not_mem_nil, or_false] at hmem
  rcases hmem with rfl | rfl | rfl <;> simp at hx hy

/-- C3 (amended): for all end points the loop of `line` terminates, and the
sequence of calls made by `line(c, x1,y1, x0,y0)` is the image of the sequence
made by `line(c, x0,y0, x1,y1)` under the point reflection
`(x, y) ↦ (x0 + x1 - x, y0 + y1 - y)` that exchanges the two end points. -/
theorem line_reverse_is_point_reflection (c : Nat) (x0 y0 x1 y1 : Int) :
    ∃ calls, f_line_calls c x0 y0 x1 y1 = some calls ∧
      f_line_calls c x1 y1 x0 y0 = some (calls.map (reflectCall (x0 + x1) (y0 + y1))) := by
  obtain ⟨calls, hcalls⟩ := f_line_calls_terminates c x0 y0 x1 y1
  refine ⟨calls, hcalls, ?_⟩
  have hrefl := line_loop_reflect c x1 y1 (abs (x1 - x0)) (-abs (y1 - y0))
    (if x0 < x1 then 1 else -1) (if y0 < y1 then 1 else -1) (x0 + x1) (y0 + y1)
    (line_fuel x0 y0 x1 y1) x0 y0 (abs (x1 - x0) + -abs (y1 - y0))
  simp only [f_line_calls] at hcalls
  rw [hcalls, add_sub_cancel_right, add_sub_cancel_right, add_sub_cancel_left,
    add_sub_cancel_left] at hrefl
  simp only [Option.map_some'] at hrefl
  rw [← hrefl]
  simp only [f_line_calls, c_abs_sub_comm x0 x1, c_abs_sub_comm y0 y1, line_fuel_comm]
  have ha := c_abs_nonneg (x1 - x0)
  have hb := c_abs_nonneg (y1 - y0)
  -- the step `sx` of the reversed call is the negated step, unless `x0 = x1`
  have hsx : line_loop c x0 y0 (abs (x1 - x0)) (-abs (y1 - y0))
      (if x1 < x0 then 1 else -1) (if y1 < y0 then 1 else -1)
      (line_fuel x0 y0 x1 y1) x1 y1 (abs (x1 - x0) + -abs (y1 - y0)) =
      line_loop c x0 y0 (abs (x1 - x0)) (-abs (y1 - y0))
      (-(if x0 < x1 then 1 else -1)) (if y1 < y0 then 1 else -1)
      (line_fuel x0 y0 x1 y1) x1 y1 (abs (x1 - x0) + -abs (y1 - y0)) := by
    by_cases hx : x0 = x1
    · have h0 : abs (x1 - x0) = 0 := by simp [hx, abs]
      rw [h0, zero_add]
      exact line_loop_sx_irrelevant c x0 y0 _ _ _ _ (by omega) _ _ _
    · have : (if x1 < x0 then (1 : Int) else -1) = -(if x0 < x1 then 1 else -1) := by
        split_ifs <;> omega
      rw [this]
  have hsy : line_loop c x0 y0 (abs (x1 - x0)) (-abs (y1 - y0))
      (-(if x0 < x1 then 1 else -1)) (if y1 < y0 then 1 else -1)
      (line_fuel x0 y0 x1 y1) x1 y1 (abs (x1 - x0) + -abs (y1 - y0)) =
      line_loop c x0 y0 (abs (x1 - x0)) (-abs (y1 - y0))
      (-(if x0 < x1 then 1 else -1)) (-(if y0 < y1 then 1 else -1))
      (line_fuel x0 y0 x1 y1) x1 y1 (abs (x1 - x0) + -abs (y1 - y0)) := by
    by_cases hy : y0 = y1
    · have h0 : abs (y1 - y0) = 0 := by simp [hy, abs]
      rw [h0, neg_zero, add_zero]
      exact line_loop_sy_irrelevant c x0 y0 _ _ _ _ ha _ _ _
    · have : (if y1 < y0 then (1 : Int) else -1) = -(if y0 < y1 then 1 else -1) := by
        split_ifs <;> omega
      rw [this]
  rw [hsx, hsy]

/-- C4 (the code at the failing input): the second `luaL_argcheck` of
`palette(idx, color)` tests `idx` again, so `remap(0, target)` succeeds for
every `target`, in range or not: it stores `(Uint8)target` in `mapping[0]` and
returns `target` (as narrowed to `int`); in particular `remap(0, 16)` stores
16. -/
theorem remap_accepts_any_target (s : State) (target : Int) :
    remap s 0 target =
      .ok ({ s with palette_mapping := s.palette_mapping.set 0 (toUint8 target) },
        [toInt target]) ∧
    remap s 0 16 = .ok ({ s with palette_mapping := s.palette_mapping.set 0 16 }, [16]) := by
  have h0 : toInt 0 = 0 := by decide
  have h16 : toInt 16 = 16 := by decide
  constructor
  · simp [remap, f_palette, h0, toUint8_toInt]
  · simp [remap, f_palette, h0, h16, toUint8]

/-- C5 (the code at the failing input): the default alpha key is
`(Uint8)256 = 0`, so `draw(x, y, 1, 1, [b])` without an alpha argument makes
no `draw_pixel` call when the byte `b` decodes to colour 0. -/
theorem draw_default_alpha_skips_colour_zero (hexdecoder_table : Nat → Nat) (s : State)
    (x y : Int) (b : Nat) :
    toUint8 ((none : Option Int).getD 256) = 0 ∧
    f_draw hexdecoder_table s x y 1 1 [b] none =
      .ok (if hexdecoder_table b % 256 = 0 then s
        else draw_pixel s x y (hexdecoder_table b % 256)) := by
  have ha : toUint8 ((none : Option Int).getD 256) = 0 := by decide
  have h256 : toUint8 256 = 0 := by decide
  have h1 : toInt 1 = 1 := by decide
  have hm : mulInt 1 1 = 1 := by decide
  refine ⟨ha, ?_⟩
  by_cases hb : hexdecoder_table b % 256 = 0
  · simp [f_draw, f_draw_calls, loopRange_single, h256, hb, draw_calls, h1, hm]
  · simp [f_draw, f_draw_calls, loopRange_single, h256, hb, draw_calls, h1, hm]

/-- C6 (the code at the failing input): `color(idx, r, g, b)` never assigns
`palette_modified`: whenever `set_color` succeeds the flag keeps its previous
value. On the sample framebuffer (flag clear) the flag stays clear after
`set_color(0, 255, 0, 0)`, and the next `render_screen` that decodes the
canvas (after a pixel write) makes no `SDL_SetPaletteColors` call. -/
theorem set_color_keeps_palette_flag (s : State) (i r g b : Int) :
    (match set_color s i r g b with
      | .ok res => res.1.palette_modified = s.palette_modified
      | .error _ => True) ∧
    (set_color sampleState 0 255 0 0).map (fun res =>
        (res.1.palette_modified, (render_screen (draw_pixel res.1 0 0 1)).2)) =
      .ok (0, [BackendCall.RenderClear, BackendCall.BlitSurface, BackendCall.UpdateTexture,
        BackendCall.RenderCopy, BackendCall.RenderPresent]) := by
  constructor
  · by_cases hi : 0 ≤ toInt i ∧ toInt i < 16
    · simp [set_color, f_color, hi]
    · simp [set_color, f_color, hi]
  · rfl

/-- C7: a `draw_pixel` (the spec's `set_pixel`) at a coordinate outside the
clip rectangle returns the global state unchanged: canvas, dirty flags,
mapping and clip rectangle all keep their values; the function is total, so no
error is raised. The same holds for the API call `pixel(c, x, y)`. -/
theorem draw_pixel_outside_clip (s : State) (x y c : Int) (color : Nat)
    (h : ¬ inClip s x y) :
    draw_pixel s x y color = s ∧ f_pixel s c x y = s := by
  have hd : ∀ col, draw_pixel s x y col = s := by
    intro col
    unfold draw_pixel
    cases s.surface8 <;> simp [h]
  exact ⟨hd color, hd _⟩

theorem draw_pixel_outside_clip_witness :
    ¬ inClip sampleState 2 0 ∧
    (draw_pixel sampleState 2 0 7 = sampleState ∧ f_pixel sampleState 300 2 0 = sampleState) :=
  ⟨by decide, draw_pixel_outside_clip sampleState 2 0 300 7 (by decide)⟩

/-- C8: on a well-formed framebuffer, for `(x,y)` inside the clip rectangle and
any integer colour argument `c`, `pixel(c, x, y)` stores
`mapping[c mod 16]` (with the non-negative remainder) in the canvas cell
`(x,y)`, sets `screen_modified`, leaves every other canvas cell unchanged, and
changes neither the mapping, the clip rectangle, the palette nor
`palette_modified`. -/
theorem f_pixel_inside_clip (s : State) (c x y : Int)
    (hwf : WellFormed s) (hclip : inClip s x y) :
    cell (f_pixel s c x y) x y = some (s.palette_mapping.getD (c % 16).toNat 0) ∧
    (f_pixel s c x y).screen_modified = -1 ∧
    (∀ x' y', inCanvas s x' y' → (x', y') ≠ (x, y) →
      cell (f_pixel s c x y) x' y' = cell s x' y') ∧
    (f_pixel s c x y).palette_mapping = s.palette_mapping ∧
    (f_pixel s c x y).clip_tl = s.clip_tl ∧ (f_pixel s c x y).clip_br = s.clip_br ∧
    (f_pixel s c x y).palette = s.palette ∧
    (f_pixel s c x y).palette_modified = s.palette_modified := by
  unfold WellFormed at hwf
  cases hs : s.surface8 with
  | none => simp [hs] at hwf
  | some surf =>
    simp only [hs] at hwf
    obtain ⟨hw, hh, hp, hlen, hx0, hx1, hy0, hy1, _⟩ := hwf
    obtain ⟨hcx0, hcx1, hcy0, hcy1⟩ := hclip
    have hclip' : inClip s x y := ⟨hcx0, hcx1, hcy0, hcy1⟩
    have hoff := offset_in_buffer surf.pitch surf.w surf.h x y hp (by omega) (by omega)
    have hdef : f_pixel s c x y = { s with
        surface8 := some { surf with
          pixels := storeByte surf.pixels (surf.pitch * y + x)
            (s.palette_mapping.getD ((c % 16).toNat) 0) }
        screen_modified := -1 } := by
      simp only [f_pixel, draw_pixel, hs, hclip', if_true, toUint8_mod_16]
    rw [hdef]
    refine ⟨?_, rfl, ?_, rfl, rfl, rfl, rfl, rfl⟩
    · simp only [cell]
      exact loadByte_storeByte_same _ _ _ hoff.1 (by omega)
    · intro x' y' hcv hne
      simp only [inCanvas, hs] at hcv
      simp only [cell, hs]
      apply loadByte_storeByte_other
      intro heq
      have := offset_injective surf.pitch x y x' y' (by omega) (by omega) heq
      exact hne (by rw [this.1, this.2])

theorem f_pixel_inside_clip_witness :
    cell (f_pixel sampleState (-3) 1 0) 1 0 =
        some (sampleState.palette_mapping.getD ((-3 : Int) % 16).toNat 0) ∧
    (f_pixel sampleState (-3) 1 0).screen_modified = -1 ∧
    (∀ x' y', inCanvas sampleState x' y' → (x', y') ≠ (1, 0) →
      cell (f_pixel sampleState (-3) 1 0) x' y' = cell sampleState x' y') ∧
    (f_pixel sampleState (-3) 1 0).palette_mapping = sampleState.palette_mapping ∧
    (f_pixel sampleState (-3) 1 0).clip_tl = sampleState.clip_tl ∧
    (f_pixel sampleState (-3) 1 0).clip_br = sampleState.clip_br ∧
    (f_pixel sampleState (-3) 1 0).palette = sampleState.palette ∧
    (f_pixel sampleState (-3) 1 0).palette_modified = sampleState.palette_modified :=
  f_pixel_inside_clip sampleState (-3) 1 0 (by decide) (by decide)

/-- C9 (counterexample): `color(idx, r, g, b)` converts `r`, `g`, `b` with
`(int)luaL_checknumber` before it clamps. For `set_color(0, 2^31, -2^31-1, 2^32)`
the converted values are `INT_MIN`, so the triple stored, returned, and
returned again by `get_color(0)`, is `(0, 0, 0)`, whereas the clamped triple of
the arguments is `(255, 0, 255)`. -/
theorem set_color_outside_int_range :
    (∃ s', set_color sampleState 0 2147483648 (-2147483649) 4294967296 = .ok (s', [0, 0, 0]) ∧
      get_color s' 0 = .ok (s', [0, 0, 0])) ∧
    [clamp 2147483648 0 255, clamp (-2147483649) 0 255, clamp 4294967296 0 255] =
      [255, 0, 255] :=
  ⟨⟨_, rfl, rfl⟩, by decide⟩

/-- C9 (amended): for an index `i` in `[0,16)` and `r`, `g`, `b` in the range of
the C `int`, `set_color(i,r,g,b)` succeeds and returns the clamped triple (each
component `0` below 0, `255` above 255, itself in between); in the resulting
state `get_color(i)` returns the same clamped triple, which is `(r,g,b)` itself
when all three lie in `[0,255]`; every other palette entry, and what
`get_color` returns for every index that does not denote entry `i`, is
unchanged. (`palette` is the 16-entry table of `pix.h`.) -/
theorem set_color_get_color (s : State) (i r g b : Int)
    (hlen : s.palette.length = 16) (hi : 0 ≤ i ∧ i < 16)
    (hr : INT_MIN ≤ r ∧ r ≤ INT_MAX) (hg : INT_MIN ≤ g ∧ g ≤ INT_MAX)
    (hb : INT_MIN ≤ b ∧ b ≤ INT_MAX) :
    ∃ s', set_color s i r g b = .ok (s', [clamp r 0 255, clamp g 0 255, clamp b 0 255]) ∧
      get_color s' i = .ok (s', [clamp r 0 255, clamp g 0 255, clamp b 0 255]) ∧
      ((0 ≤ r ∧ r ≤ 255) ∧ (0 ≤ g ∧ g ≤ 255) ∧ (0 ≤ b ∧ b ≤ 255) →
        get_color s' i = .ok (s', [r, g, b])) ∧
      (∀ v : Int, clamp v 0 255 = if v < 0 then 0 else if v > 255 then 255 else v) ∧
      s'.palette.length = 16 ∧
      (∀ k : Nat, (k : Int) ≠ i → s'.palette[k]? = s.palette[k]?) ∧
      (∀ k : Int, toInt k ≠ i →
        (get_color s' k).map Prod.snd = (get_color s k).map Prod.snd) := by
  have hlt : i.toNat < s.palette.length := by omega
  have hti : toInt i = i := toInt_of_small i (by omega)
  have hnr : numberToInt r = r := numberToInt_of_range r hr
  have hng : numberToInt g = g := numberToInt_of_range g hg
  have hnb : numberToInt b = b := numberToInt_of_range b hb
  have hget : ∀ s'' : State, ∀ col : SDL_Color, s''.palette[i.toNat]? = some col →
      get_color s'' i = .ok (s'', [(col.r : Int), (col.g : Int), (col.b : Int)]) := by
    intro s'' col hcol
    simp [get_color, f_color, hti, hi, hcol]
  refine ⟨{ s with palette := (s.palette.set i.toNat
      (SDL_Color.mk (toUint8 (clamp r 0 255)) (toUint8 (clamp g 0 255))
        (toUint8 (clamp b 0 255)) (s.palette.getD i.toNat ⟨0, 0, 0, 0⟩).a)) },
    ?_, ?_, ?_, ?_, ?_, ?_, ?_⟩
  · simp only [set_color, f_color]
    simp [hti, hnr, hng, hnb, hi, toUint8_clamp]
  · rw [hget _ _ (List.getElem?_set_self hlt)]
    simp [toUint8_clamp]
  · rintro ⟨hr', hg', hb'⟩
    rw [hget _ _ (List.getElem?_set_self hlt)]
    simp [clamp_of_mem, hr', hg', hb', toUint8_of_lt r (by omega), toUint8_of_lt g (by omega),
      toUint8_of_lt b (by omega)]
  · intro v
    simp only [clamp, maximum, minimum]
    split_ifs <;> omega
  · simp [hlen]
  · intro k hk
    have hne : i.toNat ≠ k := by omega
    simp [List.getElem?_set_ne hne]
  · intro k hk
    by_cases hk16 : 0 ≤ toInt k ∧ toInt k < 16
    · have hne : i.toNat ≠ (toInt k).toNat := by omega
      simp [get_color, f_color, hk16, List.getElem?_set_ne hne, Except.map]
    · simp [get_color, f_color, hk16, Except.map]

theorem set_color_get_color_witness :
    ∃ s', set_color sampleState 3 300 (-5) 17 =
        .ok (s', [clamp 300 0 255, clamp (-5) 0 255, clamp 17 0 255]) ∧
      get_color s' 3 = .ok (s', [clamp 300 0 255, clamp (-5) 0 255, clamp 17 0 255]) ∧
      ((0 ≤ (300 : Int) ∧ (300 : Int) ≤ 255) ∧ (0 ≤ (-5 : Int) ∧ (-5 : Int) ≤ 255) ∧
          (0 ≤ (17 : Int) ∧ (17 : Int) ≤ 255) →
        get_color s' 3 = .ok (s', [300, -5, 17])) ∧
      (∀ v : Int, clamp v 0 255 = if v < 0 then 0 else if v > 255 then 255 else v) ∧
      s'.palette.length = 16 ∧
      (∀ k : Nat, (k : Int) ≠ 3 → s'.palette[k]? = sampleState.palette[k]?) ∧
      (∀ k : Int, toInt k ≠ 3 →
        (get_color s' k).map Prod.snd = (get_color sampleState k).map Prod.snd) :=
  set_color_get_color sampleState 3 300 (-5) 17 (by decide) (by decide) (by decide) (by decide)
    (by decide)

/-- C10 (counterexample): `palette(idx)` narrows the index with
`(int)luaL_checkinteger` before it reads the table, so `get_mapping(2^32 + 2)`
reads entry 2. After `remap(2, 9)` it returns 9 where it returned 2 before,
although `2^32 + 2 ≠ 2`. -/
theorem get_mapping_narrowed_index_changes :
    (4294967298 : Int) ≠ 2 ∧
    ∃ s', remap sampleState 2 9 = .ok (s', [9]) ∧
      get_mapping sampleState 4294967298 = .ok (sampleState, [2]) ∧
      get_mapping s' 4294967298 = .ok (s', [9]) :=
  ⟨by decide, _, rfl, rfl, rfl⟩

/-- C10 (amended): for `i`, `j` in `[0,16)`, `remap(i,j)` succeeds and afterwards
`get_mapping(i)` returns `j`, while `get_mapping(k)` returns what it returned
before for every `k` whose conversion to `int` differs from `i`, in particular
for every `k ≠ i` in the range of `int`; and from any state with a 16-entry
mapping table (in particular after any sequence of remaps, which keep the
table at 16 entries) `reset_mapping()` succeeds and afterwards
`get_mapping(i)` returns `i` for every `i` in `[0,16)`. -/
theorem remap_get_mapping (s : State) (i j : Int)
    (hlen : s.palette_mapping.length = 16) (hi : 0 ≤ i ∧ i < 16) (hj : 0 ≤ j ∧ j < 16) :
    (∃ s', remap s i j = .ok (s', [j]) ∧
      get_mapping s' i = .ok (s', [j]) ∧
      s'.palette_mapping.length = 16 ∧
      (∀ k : Int, toInt k ≠ i →
        (get_mapping s' k).map Prod.snd = (get_mapping s k).map Prod.snd) ∧
      (∀ k : Int, INT_MIN ≤ k ∧ k ≤ INT_MAX → k ≠ i →
        (get_mapping s' k).map Prod.snd = (get_mapping s k).map Prod.snd)) ∧
    (∃ s', reset_mapping s = .ok (s', []) ∧
      s'.palette_mapping.length = 16 ∧
      ∀ k : Int, 0 ≤ k ∧ k < 16 → get_mapping s' k = .ok (s', [k])) := by
  have hlt : i.toNat < s.palette_mapping.length := by omega
  have hti : toInt i = i := toInt_of_small i (by omega)
  have htj : toInt j = j := toInt_of_small j (by omega)
  have hother : ∀ k : Int, toInt k ≠ i →
      (get_mapping { s with palette_mapping := s.palette_mapping.set i.toNat (toUint8 j) }
        k).map Prod.snd = (get_mapping s k).map Prod.snd := by
    intro k hk
    by_cases hk16 : 0 ≤ toInt k ∧ toInt k < 16
    · have hne : i.toNat ≠ (toInt k).toNat := by omega
      simp [get_mapping, f_palette, hk16, List.getElem?_set_ne hne, Except.map]
    · simp [get_mapping, f_palette, hk16, Except.map]
  constructor
  · refine ⟨{ s with palette_mapping := s.palette_mapping.set i.toNat (toUint8 j) },
      ?_, ?_, ?_, hother, ?_⟩
    · simp [remap, f_palette, hti, htj, hi]
    · have hj' : 0 ≤ j ∧ j < 256 := by omega
      simp [get_mapping, f_palette, hti, hi, List.getElem?_set_self hlt, toUint8_of_lt j hj']
    · simp [hlen]
    · intro k hkr hk
      apply hother
      rw [toInt_of_range k hkr]
      exact hk
  · obtain ⟨hl, hk⟩ := foldl_set_range (fun i => toUint8 (i : Int)) 16 s.palette_mapping
    refine ⟨{ s with palette_mapping :=
      (List.range 16).foldl (fun m i => m.set i (toUint8 (i : Int))) s.palette_mapping },
      ?_, ?_, ?_⟩
    · simp [reset_mapping, f_palette]
    · simp [hl, hlen]
    · intro k hk16
      have htk : toInt k = k := toInt_of_small k (by omega)
      have h1 : k.toNat < 16 ∧ k.toNat < s.palette_mapping.length := by omega
      have h2 : (toUint8 k : Int) = k := toUint8_of_lt k (by omega)
      have h3 : (toUint8 (k.toNat : Int) : Int) = k := by
        rw [toUint8_of_lt _ (by omega)]
        omega
      simp [get_mapping, f_palette, htk, hk16, hk, h1, h2, h3]

theorem remap_get_mapping_witness :
    (∃ s', remap sampleState 2 9 = .ok (s', [9]) ∧
      get_mapping s' 2 = .ok (s', [9]) ∧
      s'.palette_mapping.length = 16 ∧
      (∀ k : Int, toInt k ≠ 2 →
        (get_mapping s' k).map Prod.snd = (get_mapping sampleState k).map Prod.snd) ∧
      (∀ k : Int, INT_MIN ≤ k ∧ k ≤ INT_MAX → k ≠ 2 →
        (get_mapping s' k).map Prod.snd = (get_mapping sampleState k).map Prod.snd)) ∧
    (∃ s', reset_mapping sampleState = .ok (s', []) ∧
      s'.palette_mapping.length = 16 ∧
      ∀ k : Int, 0 ≤ k ∧ k < 16 → get_mapping s' k = .ok (s', [k])) :=
  remap_get_mapping sampleState 2 9 (by decide) (by decide) (by decide)

/-- C11 (counterexample): the index is narrowed by `(int)luaL_checkinteger`
before it is tested. The index `2^32 + 3` lies outside `[0,16)` but is taken
as 3: `set_color` overwrites palette entry 3, `remap` overwrites mapping entry
3, and `get_color` and `get_mapping` return entry 3; none of the four calls
fails. -/
theorem index_outside_int_range_accepted :
    ¬ (0 ≤ (4294967299 : Int) ∧ (4294967299 : Int) < 16) ∧
    (∃ s', set_color sampleState 4294967299 1 2 3 = .ok (s', [1, 2, 3]) ∧
      s'.palette[3]? = some ⟨1, 2, 3, 255⟩) ∧
    get_color sampleState 4294967299 = .ok (sampleState, [0, 0, 0]) ∧
    (∃ s', remap sampleState 4294967299 5 = .ok (s', [5]) ∧
      s'.palette_mapping[3]? = some 5) ∧
    get_mapping sampleState 4294967299 = .ok (sampleState, [3]) :=
  ⟨by decide, ⟨_, rfl, by decide⟩, rfl, ⟨_, rfl, by decide⟩, rfl⟩

/-- C11 (amended): for every index `i` whose conversion to `int` lies outside
`[0,16)`, in particular for every `i` outside `[0,16)` in the range of the C
`int`, `set_color(i, r, g, b)`, `get_color(i)`, `remap(i, target)` and
`get_mapping(i)` each raise the argument error "invalid color index" for
argument 1. An error result carries no new state: the palette, the mapping
table and both dirty flags stay as they were. -/
theorem invalid_index_fails (s : State) (i r g b target : Int) :
    (¬ (0 ≤ toInt i ∧ toInt i < 16) →
      set_color s i r g b = .error (.ArgError 1 "invalid color index") ∧
      get_color s i = .error (.ArgError 1 "invalid color index") ∧
      remap s i target = .error (.ArgError 1 "invalid color index") ∧
      get_mapping s i = .error (.ArgError 1 "invalid color index")) ∧
    (INT_MIN ≤ i ∧ i ≤ INT_MAX → ¬ (0 ≤ i ∧ i < 16) →
      set_color s i r g b = .error (.ArgError 1 "invalid color index") ∧
      get_color s i = .error (.ArgError 1 "invalid color index") ∧
      remap s i target = .error (.ArgError 1 "invalid color index") ∧
      get_mapping s i = .error (.ArgError 1 "invalid color index")) := by
  have hgen : ¬ (0 ≤ toInt i ∧ toInt i < 16) →
      set_color s i r g b = .error (.ArgError 1 "invalid color index") ∧
      get_color s i = .error (.ArgError 1 "invalid color index") ∧
      remap s i target = .error (.ArgError 1 "invalid color index") ∧
      get_mapping s i = .error (.ArgError 1 "invalid color index") := by
    intro hi
    refine ⟨?_, ?_, ?_, ?_⟩
    · simp [set_color, f_color, hi]
    · simp [get_color, f_color, hi]
    · simp [remap, f_palette, hi]
    · simp [get_mapping, f_palette, hi]
  refine ⟨hgen, fun hint hi => hgen ?_⟩
  rw [toInt_of_range i hint]
  exact hi

theorem invalid_index_fails_witness :
    (set_color sampleState 4294967312 1 2 3 = .error (.ArgError 1 "invalid color index") ∧
      get_color sampleState 4294967312 = .error (.ArgError 1 "invalid color index") ∧
      remap sampleState 4294967312 5 = .error (.ArgError 1 "invalid color index") ∧
      get_mapping sampleState 4294967312 = .error (.ArgError 1 "invalid color index")) ∧
    (set_color sampleState (-1) 1 2 3 = .error (.ArgError 1 "invalid color index") ∧
      get_color sampleState (-1) = .error (.ArgError 1 "invalid color index") ∧
      remap sampleState (-1) 5 = .error (.ArgError 1 "invalid color index") ∧
      get_mapping sampleState (-1) = .error (.ArgError 1 "invalid color index")) :=
  ⟨(invalid_index_fails sampleState 4294967312 1 2 3 5).1 (by decide),
   (invalid_index_fails sampleState (-1) 1 2 3 5).2 (by decide) (by decide)⟩

/-- C12 (counterexample): `w` and `h` are narrowed by `(int)luaL_checkinteger`
before the test `(int)length == w * h`. For `w = 2^32 + 2`, `h = 2` and 4 data
bytes the length differs from `w * h`, but `w` is taken as 2: the call does not
fail and draws the four pixels. -/
theorem draw_accepts_narrowed_width :
    ((([1, 1, 1, 1] : List Nat).length : Nat) : Int) ≠ 4294967298 * 2 ∧
    f_draw (fun b => b) sampleState 0 0 4294967298 2 [1, 1, 1, 1] none =
      .ok (draw_calls sampleState [PixelCall.mk 0 0 1, PixelCall.mk 1 0 1,
        PixelCall.mk 0 1 1, PixelCall.mk 1 1 1]) ∧
    cell (draw_calls sampleState [PixelCall.mk 0 0 1, PixelCall.mk 1 0 1,
        PixelCall.mk 0 1 1, PixelCall.mk 1 1 1]) 1 1 = some 1 ∧
    cell sampleState 1 1 = some 0 :=
  ⟨by decide, rfl, by decide, by decide⟩

/-- C12 (amended): let `w'`, `h'` be `w`, `h` converted to `int`. When the
product `w' * h'` does not overflow `int` and the data has at most `INT_MAX`
bytes, `draw(x, y, w, h, pixels [, alpha])` raises the argument error "invalid
length of pixel string" exactly when the length of `pixels` differs from
`w' * h'`; the check precedes the loops, so in that case no `draw_pixel` call is
made and the state is not touched. When the length equals `w' * h'` the call
succeeds and performs the calls of `f_draw_calls`. In particular, for `w`, `h`
in the range of `int` whose product does not overflow, the call fails exactly
when the length differs from `w * h`. -/
theorem draw_validates_length (hexdecoder_table : Nat → Nat) (s : State) (x y w h : Int)
    (pixels : List Nat) (alpha : Option Int) (hlen : (pixels.length : Int) ≤ INT_MAX) :
    (INT_MIN ≤ toInt w * toInt h ∧ toInt w * toInt h ≤ INT_MAX →
      ((pixels.length : Int) ≠ toInt w * toInt h →
        f_draw hexdecoder_table s x y w h pixels alpha =
          .error (.ArgError 5 "invalid length of pixel string")) ∧
      ((pixels.length : Int) = toInt w * toInt h →
        f_draw hexdecoder_table s x y w h pixels alpha =
          .ok (draw_calls s (f_draw_calls hexdecoder_table x y (toInt w) (toInt h) pixels
            (toUint8 (alpha.getD 256)))))) ∧
    (INT_MIN ≤ w ∧ w ≤ INT_MAX → INT_MIN ≤ h ∧ h ≤ INT_MAX →
      INT_MIN ≤ w * h ∧ w * h ≤ INT_MAX →
      ((pixels.length : Int) ≠ w * h →
        f_draw hexdecoder_table s x y w h pixels alpha =
          .error (.ArgError 5 "invalid length of pixel string")) ∧
      ((pixels.length : Int) = w * h →
        f_draw hexdecoder_table s x y w h pixels alpha =
          .ok (draw_calls s (f_draw_calls hexdecoder_table x y w h pixels
            (toUint8 (alpha.getD 256)))))) := by
  have hmin : INT_MIN = -2147483648 := rfl
  have htl : toInt (pixels.length : Int) = (pixels.length : Int) :=
    toInt_of_range _ ⟨by omega, hlen⟩
  have hgen : INT_MIN ≤ toInt w * toInt h ∧ toInt w * toInt h ≤ INT_MAX →
      ((pixels.length : Int) ≠ toInt w * toInt h →
        f_draw hexdecoder_table s x y w h pixels alpha =
          .error (.ArgError 5 "invalid length of pixel string")) ∧
      ((pixels.length : Int) = toInt w * toInt h →
        f_draw hexdecoder_table s x y w h pixels alpha =
          .ok (draw_calls s (f_draw_calls hexdecoder_table x y (toInt w) (toInt h) pixels
            (toUint8 (alpha.getD 256))))) := by
    intro hwh
    have htm : mulInt (toInt w) (toInt h) = toInt w * toInt h := toInt_of_range _ hwh
    constructor
    · intro hne
      simp only [f_draw, htm, htl]
      rw [if_neg hne]
    · intro heq
      simp only [f_draw, htm, htl]
      rw [if_pos heq]
  refine ⟨hgen, fun hw hh hwh => ?_⟩
  have hg := hgen
  rw [toInt_of_range w hw, toInt_of_range h hh] at hg
  exact hg hwh

theorem draw_validates_length_witness :
    f_draw (fun b => b) sampleState 0 0 4294967298 2 [7, 8, 9] none =
      .error (.ArgError 5 "invalid length of pixel string") ∧
    f_draw (fun b => b) sampleState 0 0 2 2 [7, 8, 9] none =
      .error (.ArgError 5 "invalid length of pixel string") ∧
    f_draw (fun b => b) sampleState 0 0 2 2 [7, 8, 9, 10] none =
      .ok (draw_calls sampleState
        (f_draw_calls (fun b => b) 0 0 2 2 [7, 8, 9, 10]
          (toUint8 ((none : Option Int).getD 256)))) :=
  ⟨((draw_validates_length (fun b => b) sampleState 0 0 4294967298 2 [7, 8, 9] none
      (by decide)).1 (by decide)).1 (by decide),
   ((draw_validates_length (fun b => b) sampleState 0 0 2 2 [7, 8, 9] none
      (by decide)).2 (by decide) (by decide) (by decide)).1 (by decide),
   ((draw_validates_length (fun b => b) sampleState 0 0 2 2 [7, 8, 9, 10] none
      (by decide)).2 (by decide) (by decide) (by decide)).2 (by decide)⟩

/-- C13 (counterexample): the accumulator and the frame counter are `Uint32`.
Starting with residue 32 and observing `2^32 - 1` elapsed milliseconds, the sum
wraps to 31: the iteration makes no `on_update` call at all, although
`(32 + (2^32 - 1)) / 33 = 130150525`. Starting with frame counter `2^32 - 1`
and observing 33 milliseconds, the one `on_update` call gets the argument 0,
not `f + 1 = 2^32`. -/
theorem loop_iteration_wraps :
    loop_iteration true ⟨0, 32, 0⟩ 4294967295 =
      some (⟨4294967295, 31, 0⟩, [LoopEvent.render_screen]) ∧
    (32 + 4294967295) / PIX_FPS_TICKS = 130150525 ∧
    loop_iteration true ⟨0, 0, 4294967295⟩ 33 =
      some (⟨33, 0, 0⟩, [LoopEvent.on_update 0, LoopEvent.render_screen]) := by
  decide

/-- C13 (amended): in one loop iteration that starts with residue `a` and frame
counter `f` and observes `e` elapsed milliseconds, where `a + e` and the frame
numbers stay below `2^32`, `on_update` is called exactly `k = (a + e) / 33`
times, with arguments `f+1, ..., f+k` in this order, then `render_screen` is
called once; afterwards the residue is `(a + e) % 33` and the frame counter is
`f + k`. The tick `PIX_FPS_TICKS` is `1000 / 30 = 33`. -/
theorem loop_iteration_catch_up (last a f e : Nat) (hlast : last < 4294967296)
    (hae : a + e < 4294967296) (hf : f + (a + e) / PIX_FPS_TICKS < 4294967296) :
    PIX_FPS_TICKS = 33 ∧
    loop_iteration true ⟨last, a, f⟩ (toUint32 (last + e)) =
      some (⟨toUint32 (last + e), (a + e) % PIX_FPS_TICKS, f + (a + e) / PIX_FPS_TICKS⟩,
        (List.range ((a + e) / PIX_FPS_TICKS)).map (fun i => LoopEvent.on_update (f + 1 + i))
          ++ [LoopEvent.render_screen]) := by
  have h33 : PIX_FPS_TICKS = 33 := rfl
  refine ⟨h33, ?_⟩
  rw [h33] at hf ⊢
  have hd : toUint32 (a + toUint32 (toUint32 (last + e) + 4294967296 - last)) = a + e := by
    simp only [toUint32]; omega
  simp only [loop_iteration, hd, h33]
  rw [update_loop_spec _ (a + e) f hae (by omega) rfl]
  simp only [Option.map_some']
  have hfr : (f + (a + e) / 33) % 4294967296 = f + (a + e) / 33 := by omega
  rw [hfr]
  refine congrArg some (Prod.ext rfl ?_)
  simp only []
  refine congrArg₂ _ ?_ rfl
  apply List.map_congr_left
  intro i hi
  rw [List.mem_range] at hi
  congr 1
  omega

theorem loop_iteration_catch_up_witness :
    PIX_FPS_TICKS = 33 ∧
    loop_iteration true ⟨1000, 0, 7⟩ (toUint32 (1000 + 99)) =
      some (⟨toUint32 (1000 + 99), (0 + 99) % PIX_FPS_TICKS, 7 + (0 + 99) / PIX_FPS_TICKS⟩,
        (List.range ((0 + 99) / PIX_FPS_TICKS)).map (fun i => LoopEvent.on_update (7 + 1 + i))
          ++ [LoopEvent.render_screen]) :=
  loop_iteration_catch_up 1000 0 7 99 (by decide) (by decide) (by decide)

/-- C14 (the code at the failing input): `init_screen` subtracts
`PIX_WINDOW_WIDTH` and `PIX_WINDOW_HEIGHT` (256) from the desktop size, not
`PIX_WINDOW_PADDING` (64). For a desktop of 800×600 and a canvas of 100×100 the
factor is `min (544 / 100) (344 / 100) = 3` and the window is 300×300, whereas
with the padding the factor would be `min (736 / 100) (536 / 100) = 5`. -/
theorem fit_window_uses_window_size (fuel : Nat) :
    fit_window fuel (some ⟨800, 600⟩) 100 100 = some (300, 300) ∧
    min (Int.tdiv (800 - PIX_WINDOW_PADDING) 100) (Int.tdiv (600 - PIX_WINDOW_PADDING) 100) = 5 ∧
    min (Int.tdiv (800 - PIX_WINDOW_WIDTH) 100) (Int.tdiv (600 - PIX_WINDOW_HEIGHT) 100) = 3 := by
  refine ⟨?_, by decide, by decide⟩
  simp only [fit_window]
  rfl

/-- C15 (counterexample): `width` and `height` are narrowed by
`(int)luaL_checkinteger` before the range checks. The width `2^32 + 5` lies
outside `[1, 1024]` but is taken as 5: `create(2^32 + 5, 5)` raises no error,
replaces the framebuffer by a 5x5 one and returns `(5, 5)`. -/
theorem create_accepts_narrowed_width :
    ((4294967301 : Int) < 1 ∨ 1024 < (4294967301 : Int) ∨ (5 : Int) < 1 ∨ 1024 < (5 : Int)) ∧
    (∃ s', create 11 none sampleState 4294967301 5 = some (.ok (s', some (5, 5))) ∧
      s'.surface8 = some (SDL_CreateRGBSurface8 5 5) ∧
      s'.surface8 ≠ sampleState.surface8) :=
  ⟨by decide, _, rfl, rfl, by decide⟩

/-- C15 (amended): `create(width, height)` raises an error if and only if
`width` or `height`, converted to `int`, lies outside `[1, 1024]`; in
particular, for `width` and `height` in the range of the C `int`, if and only
if `width` or `height` lies outside `[1, 1024]`. The error is then an argument
error ("invalid screen width" for argument 1, else "invalid screen height" for
argument 2). The checks precede `init_screen`, hence `destroy_screen`: the
error result carries no new state, the globals stay as they were. -/
theorem create_fails_iff (fuel : Nat) (desktop : Option SDL_DisplayMode) (s : State)
    (w h : Int) :
    ((∃ e, create fuel desktop s w h = some (.error e)) ↔
      (toInt w < 1 ∨ 1024 < toInt w ∨ toInt h < 1 ∨ 1024 < toInt h)) ∧
    ((toInt w < 1 ∨ 1024 < toInt w) →
      create fuel desktop s w h = some (.error (.ArgError 1 "invalid screen width"))) ∧
    (¬ (toInt w < 1 ∨ 1024 < toInt w) → (toInt h < 1 ∨ 1024 < toInt h) →
      create fuel desktop s w h = some (.error (.ArgError 2 "invalid screen height"))) ∧
    (INT_MIN ≤ w ∧ w ≤ INT_MAX → INT_MIN ≤ h ∧ h ≤ INT_MAX →
      ((∃ e, create fuel desktop s w h = some (.error e)) ↔
        (w < 1 ∨ 1024 < w ∨ h < 1 ∨ 1024 < h)) ∧
      ((w < 1 ∨ 1024 < w) →
        create fuel desktop s w h = some (.error (.ArgError 1 "invalid screen width"))) ∧
      (¬ (w < 1 ∨ 1024 < w) → (h < 1 ∨ 1024 < h) →
        create fuel desktop s w h = some (.error (.ArgError 2 "invalid screen height")))) := by
  have hW : PIX_MAX_WINDOW_WIDTH = 1024 := rfl
  have hH : PIX_MAX_WINDOW_HEIGHT = 1024 := rfl
  have hgen : ((∃ e, create fuel desktop s w h = some (.error e)) ↔
        (toInt w < 1 ∨ 1024 < toInt w ∨ toInt h < 1 ∨ 1024 < toInt h)) ∧
      ((toInt w < 1 ∨ 1024 < toInt w) →
        create fuel desktop s w h = some (.error (.ArgError 1 "invalid screen width"))) ∧
      (¬ (toInt w < 1 ∨ 1024 < toInt w) → (toInt h < 1 ∨ 1024 < toInt h) →
        create fuel desktop s w h =
          some (.error (.ArgError 2 "invalid screen height"))) := by
    by_cases hw : toInt w > 0 ∧ toInt w ≤ 1024
    · by_cases hh : toInt h > 0 ∧ toInt h ≤ 1024
      · have hc : create fuel desktop s w h =
            (init_screen fuel desktop s (toInt w) (toInt h)).map fun r =>
              Except.ok (r.1, r.1.surface8.map fun surf => (surf.w, surf.h)) := by
          simp [create, f_screen, hW, hH, hw, hh]
        refine ⟨⟨?_, fun hout => absurd hout (by omega)⟩, fun hout => absurd hout (by omega),
          fun _ hout => absurd hout (by omega)⟩
        rintro ⟨e, he⟩
        rw [hc] at he
        cases hi : init_screen fuel desktop s (toInt w) (toInt h) with
        | none => simp [hi] at he
        | some r => simp [hi] at he
      · have hc : create fuel desktop s w h =
            some (.error (.ArgError 2 "invalid screen height")) := by
          simp [create, f_screen, hW, hH, hw, hh]
        exact ⟨⟨fun _ => by omega, fun _ => ⟨_, hc⟩⟩, fun hout => absurd hout (by omega),
          fun _ _ => hc⟩
    · have hc : create fuel desktop s w h =
          some (.error (.ArgError 1 "invalid screen width")) := by
        simp [create, f_screen, hW, hH, hw]
      exact ⟨⟨fun _ => by omega, fun _ => ⟨_, hc⟩⟩, fun _ => hc,
        fun hin => absurd (by omega) hin⟩
  refine ⟨hgen.1, hgen.2.1, hgen.2.2, fun hwi hhi => ?_⟩
  have hg := hgen
  rw [toInt_of_range w hwi, toInt_of_range h hhi] at hg
  exact hg

theorem create_fails_iff_witness :
    create 11 (some ⟨800, 600⟩) sampleState 4294968321 5 =
      some (.error (.ArgError 1 "invalid screen width")) ∧
    create 11 (some ⟨800, 600⟩) sampleState 0 5 =
      some (.error (.ArgError 1 "invalid screen width")) ∧
    create 11 (some ⟨800, 600⟩) sampleState 5 1025 =
      some (.error (.ArgError 2 "invalid screen height")) :=
  ⟨(create_fails_iff 11 (some ⟨800, 600⟩) sampleState 4294968321 5).2.1 (by decide),
   ((create_fails_iff 11 (some ⟨800, 600⟩) sampleState 0 5).2.2.2 (by decide) (by decide)).2.1
      (by decide),
   ((create_fails_iff 11 (some ⟨800, 600⟩) sampleState 5 1025).2.2.2 (by decide)
      (by decide)).2.2 (by decide) (by decide)⟩

/-- C16: for `width`, `height` in `[1, 1024]`, whatever the state before,
`create(width, height)` returns, whenever the window fitter returns, the pair
`(width, height)` and a state with clip rectangle `(0,0)-(width-1,height-1)`,
`get_mapping(i) = i` for every `i` in `[0,16)`, and `screen_modified` and
`palette_modified` both set (`-1`). The call does return when the desktop size
cannot be queried, and when the desktop is at least 256×256 and the halving
loop is granted 11 iterations. -/
theorem create_resets (fuel : Nat) (desktop : Option SDL_DisplayMode) (s : State) (w h : Int)
    (hw : 1 ≤ w ∧ w ≤ 1024) (hh : 1 ≤ h ∧ h ≤ 1024) (hlen : s.palette_mapping.length = 16) :
    ∃ s', create fuel desktop s w h =
        (fit_window fuel desktop w h).map (fun _ => .ok (s', some (w, h))) ∧
      s'.clip_tl = ⟨0, 0⟩ ∧ s'.clip_br = ⟨w - 1, h - 1⟩ ∧
      (∀ i : Int, 0 ≤ i ∧ i < 16 → get_mapping s' i = .ok (s', [i])) ∧
      s'.screen_modified = -1 ∧ s'.palette_modified = -1 ∧
      ((desktop = none ∨ ∃ dm, desktop = some dm ∧ PIX_WINDOW_WIDTH ≤ dm.w ∧
          PIX_WINDOW_HEIGHT ≤ dm.h ∧ 11 ≤ fuel) →
        create fuel desktop s w h = some (.ok (s', some (w, h)))) := by
  have hW : PIX_MAX_WINDOW_WIDTH = 1024 := rfl
  have hH : PIX_MAX_WINDOW_HEIGHT = 1024 := rfl
  obtain ⟨hl, hk⟩ := foldl_set_range (fun i => toUint8 (i : Int)) 16 s.palette_mapping
  have hw' : w > 0 ∧ w ≤ 1024 := by omega
  have hh' : h > 0 ∧ h ≤ 1024 := by omega
  have htw : toInt w = w := toInt_of_small w (by omega)
  have hth : toInt h = h := toInt_of_small h (by omega)
  have hc : create fuel desktop s w h =
      (fit_window fuel desktop w h).map (fun _ => .ok
        ({ s with
            texture := true
            surface32 := true
            surface8 := some (SDL_CreateRGBSurface8 w h)
            clip_tl := ⟨0, 0⟩
            clip_br := ⟨w - 1, h - 1⟩
            screen_modified := -1
            palette_modified := -1
            palette_mapping :=
              (List.range 16).foldl (fun m i => m.set i (toUint8 i)) s.palette_mapping },
          some (w, h))) := by
    simp only [create, f_screen, htw, hth, hW, hH, hw', hh', not_true_eq_false, if_false,
      init_screen, destroy_screen, Option.map_map]
    rfl
  refine ⟨_, hc, rfl, rfl, ?_, rfl, rfl, ?_⟩
  · intro i hi
    have hti : toInt i = i := toInt_of_small i (by omega)
    have h1 : i.toNat < 16 ∧ i.toNat < s.palette_mapping.length := by omega
    have h2 : (toUint8 i : Int) = i := toUint8_of_lt i (by omega)
    have h3 : (toUint8 (i.toNat : Int) : Int) = i := by
      rw [toUint8_of_lt _ (by omega)]
      omega
    simp [get_mapping, f_palette, hti, hi, hk, h1, h2, h3]
  · intro hd
    rw [hc]
    rcases hd with rfl | ⟨dm, rfl, hdw, hdh, hfuel⟩
    · rfl
    · obtain ⟨win, hwin⟩ := fit_window_terminates dm w h fuel hw hh hdw hdh hfuel
      rw [hwin]
      rfl

theorem create_resets_witness :
    ∃ s', create 11 (some ⟨800, 600⟩) sampleState 3 2 =
        (fit_window 11 (some ⟨800, 600⟩) 3 2).map (fun _ => .ok (s', some (3, 2))) ∧
      s'.clip_tl = ⟨0, 0⟩ ∧ s'.clip_br = ⟨3 - 1, 2 - 1⟩ ∧
      (∀ i : Int, 0 ≤ i ∧ i < 16 → get_mapping s' i = .ok (s', [i])) ∧
      s'.screen_modified = -1 ∧ s'.palette_modified = -1 ∧
      (((some ⟨800, 600⟩ : Option SDL_DisplayMode) = none ∨
          ∃ dm, (some ⟨800, 600⟩ : Option SDL_DisplayMode) = some dm ∧
            PIX_WINDOW_WIDTH ≤ dm.w ∧ PIX_WINDOW_HEIGHT ≤ dm.h ∧ 11 ≤ 11) →
        create 11 (some ⟨800, 600⟩) sampleState 3 2 = some (.ok (s', some (3, 2)))) :=
  create_resets 11 (some ⟨800, 600⟩) sampleState 3 2 (by decide) (by decide) (by decide)

/-- C17: on a well-formed framebuffer whose clip rectangle is not empty (it is
the full canvas after `init_screen`), for every colour argument `c`, after
`clear(c)` every canvas cell inside the clip rectangle holds `mapping[c mod 16]`,
every canvas cell outside the clip rectangle is unchanged, and
`screen_modified` is set. -/
theorem clear_fills_clip (s : State) (c : Int) (hwf : WellFormed s)
    (hne : s.clip_tl.x ≤ s.clip_br.x ∧ s.clip_tl.y ≤ s.clip_br.y) :
    (∀ x y, inClip s x y →
      cell (f_clear s (some c)) x y = some (s.palette_mapping.getD (c % 16).toNat 0)) ∧
    (∀ x y, inCanvas s x y → ¬ inClip s x y → cell (f_clear s (some c)) x y = cell s x y) ∧
    (f_clear s (some c)).screen_modified = -1 := by
  have hsafe := (writesInsideClip_of_wellFormed s hwf (f_clear_calls s (toUint8 c))).1.2
  unfold WellFormed at hwf
  cases hs : s.surface8 with
  | none => simp [hs] at hwf
  | some surf =>
    simp only [hs] at hwf
    obtain ⟨hw, hh, hp, hlen, hx0, hx1, hy0, hy1, _⟩ := hwf
    obtain ⟨P, M, hP, _, _, hval, hM, _, _⟩ :=
      draw_calls_form (f_clear_calls s (toUint8 c)) s surf hs
    have hdef : f_clear s (some c) = draw_calls s (f_clear_calls s (toUint8 c)) := rfl
    refine ⟨?_, ?_, ?_⟩
    · intro x y hin
      obtain ⟨h1, h2, h3, h4⟩ := hin
      have hb := offset_in_buffer surf.pitch surf.w surf.h x y hp (by omega) (by omega)
      rw [hdef, hP]
      simp only [cell]
      apply hval _ _ hb.1 (by omega)
      · exact ⟨PixelCall.mk x y (toUint8 c),
          (mem_f_clear_calls s _ _).mpr ⟨⟨h1, h2, h3, h4⟩, rfl⟩, ⟨h1, h2, h3, h4⟩, rfl⟩
      · intro call hmem
        rw [((mem_f_clear_calls s _ _).mp hmem).2, toUint8_mod_16]
    · exact hsafe
    · rw [hdef, hP]
      apply hM
      exact ⟨PixelCall.mk s.clip_tl.x s.clip_tl.y (toUint8 c),
        (mem_f_clear_calls s _ _).mpr ⟨⟨le_refl _, hne.1, le_refl _, hne.2⟩, rfl⟩,
        ⟨le_refl _, hne.1, le_refl _, hne.2⟩⟩

theorem clear_fills_clip_witness :
    (∀ x y, inClip sampleState x y →
      cell (f_clear sampleState (some 21)) x y =
        some (sampleState.palette_mapping.getD ((21 : Int) % 16).toNat 0)) ∧
    (∀ x y, inCanvas sampleState x y → ¬ inClip sampleState x y →
      cell (f_clear sampleState (some 21)) x y = cell sampleState x y) ∧
    (f_clear sampleState (some 21)).screen_modified = -1 :=
  clear_fills_clip sampleState 21 (by decide) (by decide)

/-- C18: for every canvas size in `[1,1024] × [1,1024]` and every desktop size
reported by `SDL_GetDesktopDisplayMode`, whatever window size `init_screen`
computes, in the scaling branch or in the halving branch, is at most the
available area (the desktop size minus 256 in each dimension), hence at most
the desktop size minus `PIX_WINDOW_PADDING` and at most the desktop size. A window size is computed whenever the desktop is at least
256×256 (11 iterations of the halving loop suffice). -/
theorem fit_window_within_desktop (dm : SDL_DisplayMode) (w h : Int)
    (hw : 1 ≤ w ∧ w ≤ 1024) (hh : 1 ≤ h ∧ h ≤ 1024) :
    (∀ fuel win, fit_window fuel (some dm) w h = some win →
      win.1 ≤ dm.w - PIX_WINDOW_WIDTH ∧ win.2 ≤ dm.h - PIX_WINDOW_HEIGHT ∧
      win.1 ≤ dm.w - PIX_WINDOW_PADDING ∧ win.2 ≤ dm.h - PIX_WINDOW_PADDING ∧
      win.1 ≤ dm.w ∧ win.2 ≤ dm.h) ∧
    (PIX_WINDOW_WIDTH ≤ dm.w → PIX_WINDOW_HEIGHT ≤ dm.h → ∀ fuel, 11 ≤ fuel →
      ∃ win, fit_window fuel (some dm) w h = some win) := by
  have hW : PIX_WINDOW_WIDTH = 256 := rfl
  have hH : PIX_WINDOW_HEIGHT = 256 := rfl
  have hP : PIX_WINDOW_PADDING = 64 := rfl
  constructor
  · intro fuel win hfit
    have := fit_window_fits dm w h fuel win hw.1 hh.1 hfit
    omega
  · intro hdw hdh fuel hfuel
    exact fit_window_terminates dm w h fuel hw hh hdw hdh hfuel

theorem fit_window_within_desktop_witness :
    ((1024 : Int) / 2 ≤ 1000 - PIX_WINDOW_WIDTH ∧ (1024 : Int) / 2 ≤ 1000 - PIX_WINDOW_HEIGHT ∧
      (1024 : Int) / 2 ≤ 1000 - PIX_WINDOW_PADDING ∧
      (1024 : Int) / 2 ≤ 1000 - PIX_WINDOW_PADDING ∧
      (1024 : Int) / 2 ≤ 1000 ∧ (1024 : Int) / 2 ≤ 1000) ∧
    ∃ win, fit_window 11 (some ⟨1000, 1000⟩) 1024 1024 = some win :=
  ⟨(fit_window_within_desktop ⟨1000, 1000⟩ 1024 1024 (by decide) (by decide)).1 11
      (1024 / 2, 1024 / 2) (by decide),
   (fit_window_within_desktop ⟨1000, 1000⟩ 1024 1024 (by decide) (by decide)).2
      (by decide) (by decide) 11 (by decide)⟩

/-- C19: for all end points (with `int` arithmetic that does not overflow) the
loop of `line` terminates and makes exactly `max |x1-x0| |y1-y0| + 1`
`draw_pixel` calls, at pairwise distinct coordinates, the first at `(x0,y0)`,
the last at `(x1,y1)`, each consecutive pair differing by at most 1 in `x` and
in `y`; in particular `line(c, x,y, x,y)` makes exactly one call, at `(x,y)`. -/
theorem line_visits_each_pixel_once (c : Nat) (x0 y0 x1 y1 : Int) :
    (∃ calls, f_line_calls c x0 y0 x1 y1 = some calls ∧
      (calls.length : Int) = max (abs (x1 - x0)) (abs (y1 - y0)) + 1 ∧
      calls.head? = some (PixelCall.mk x0 y0 c) ∧
      calls.getLast? = some (PixelCall.mk x1 y1 c) ∧
      List.Chain' Adjacent calls ∧
      (calls.map fun u => (u.x, u.y)).Nodup) ∧
    f_line_calls c x0 y0 x0 y0 = some [PixelCall.mk x0 y0 c] := by
  refine ⟨?_, by simp [f_line_calls, line_fuel, abs, line_loop]⟩
  have ha := c_abs_nonneg (x1 - x0)
  have hb := c_abs_nonneg (y1 - y0)
  have hsx : (if x0 < x1 then (1 : Int) else -1) = 1 ∨ (if x0 < x1 then (1 : Int) else -1) = -1 := by
    split_ifs <;> simp
  have hsy : (if y0 < y1 then (1 : Int) else -1) = 1 ∨ (if y0 < y1 then (1 : Int) else -1) = -1 := by
    split_ifs <;> simp
  have hx : x0 = x1 - (if x0 < x1 then (1 : Int) else -1) * abs (x1 - x0) := by
    unfold abs; split_ifs <;> omega
  have hy : y0 = y1 - (if y0 < y1 then (1 : Int) else -1) * abs (y1 - y0) := by
    unfold abs; split_ifs <;> omega
  have hfuel : ((line_fuel x0 y0 x1 y1 : Nat) : Int) = abs (x1 - x0) + abs (y1 - y0) + 1 := by
    simp only [line_fuel]; omega
  have herr : abs (x1 - x0) + -abs (y1 - y0) =
      abs (x1 - x0) - abs (y1 - y0) + abs (x1 - x0) * abs (y1 - y0)
        - abs (y1 - y0) * abs (x1 - x0) := by ring
  simp only [f_line_calls]
  by_cases hmaj : abs (y1 - y0) ≤ abs (x1 - x0)
  · rw [max_eq_left hmaj]
    by_cases hzero : abs (x1 - x0) = 0
    · have hb0 : abs (y1 - y0) = 0 := by omega
      have hxe : x0 = x1 := by rw [hzero] at hx; omega
      have hye : y0 = y1 := by rw [hb0] at hy; omega
      subst hxe hye
      have hf : line_fuel x0 y0 x0 y0 = 0 + 1 := by
        have : ((line_fuel x0 y0 x0 y0 : Nat) : Int) = 1 := by rw [hfuel, hzero, hb0]; rfl
        omega
      rw [hf, line_loop_succ, if_pos ⟨rfl, rfl⟩]
      refine ⟨_, rfl, ?_, rfl, rfl, List.chain'_singleton _, by simp⟩
      rw [hzero]; rfl
    · obtain ⟨calls, h1, h2, h3, h4, h5, h6, _⟩ :=
        line_loop_xmajor c x1 y1 (abs (x1 - x0)) (abs (y1 - y0)) _ _ (by omega) hb hmaj hsx hsy
          (line_fuel x0 y0 x1 y1) (abs (x1 - x0)) (abs (y1 - y0)) x0 y0 _ ha hb hx hy herr
          (by omega) (by omega) (by omega)
      exact ⟨calls, h1, h2, h3, h4, h5, h6⟩
  · rw [max_eq_right (by omega)]
    obtain ⟨calls, h1, h2, h3, h4, h5, h6, _⟩ :=
      line_loop_ymajor c x1 y1 (abs (x1 - x0)) (abs (y1 - y0)) _ _ ha (by omega) (by omega)
        hsx hsy (line_fuel x0 y0 x1 y1) (abs (x1 - x0)) (abs (y1 - y0)) x0 y0 _ ha hb hx hy herr
        (by omega) (by omega) (by omega)
    exact ⟨calls, h1, h2, h3, h4, h5, h6⟩

/-- C20: on a well-formed framebuffer (clip rectangle inside `[0,w) × [0,h)`,
row pitch at least `w`), for `clear`, `pixel`, `line`, `rect`, `circle`,
`print` (text) and `draw` (blit) with arbitrary arguments, the function is the
sequence of its `draw_pixel` calls, every store of that sequence happens at a
coordinate inside the clip rectangle and at the byte offset `pitch * y + x`,
which lies in `[0, pitch * h)`, and every canvas cell outside the clip
rectangle keeps its value. -/
theorem primitives_write_inside_clip (hexdecoder_table : Nat → Nat)
    (font8x8 : Nat → Nat → Nat) (s : State) (hwf : WellFormed s) :
    (∀ c : Option Int,
      f_clear s c = draw_calls s (f_clear_calls s (toUint8 (c.getD 0))) ∧
      WritesInsideClip s (f_clear_calls s (toUint8 (c.getD 0)))) ∧
    (∀ c x y : Int,
      f_pixel s c x y = draw_calls s [PixelCall.mk x y (toUint8 c)] ∧
      WritesInsideClip s [PixelCall.mk x y (toUint8 c)]) ∧
    (∀ c x0 y0 x1 y1 : Int, ∃ calls,
      f_line_calls (toUint8 c) x0 y0 x1 y1 = some calls ∧
      f_line s c x0 y0 x1 y1 = some (draw_calls s calls) ∧
      WritesInsideClip s calls) ∧
    (∀ (c x0 y0 x1 y1 : Int) (fill : Bool),
      f_rect s c x0 y0 x1 y1 fill = draw_calls s (f_rect_calls (toUint8 c) x0 y0 x1 y1 fill) ∧
      WritesInsideClip s (f_rect_calls (toUint8 c) x0 y0 x1 y1 fill)) ∧
    (∀ (c x0 y0 radius : Int) (fill : Bool),
      f_circle s c x0 y0 radius fill =
        draw_calls s (f_circle_calls (toUint8 c) x0 y0 radius fill) ∧
      WritesInsideClip s (f_circle_calls (toUint8 c) x0 y0 radius fill)) ∧
    (∀ (c x0 y0 : Int) (str : List Nat),
      f_print font8x8 s c x0 y0 str =
        draw_calls s (f_print_calls font8x8 (toUint8 c) x0 y0 str) ∧
      WritesInsideClip s (f_print_calls font8x8 (toUint8 c) x0 y0 str)) ∧
    (∀ (x0 y0 w h : Int) (pixels : List Nat) (alpha : Option Int),
      (f_draw hexdecoder_table s x0 y0 w h pixels alpha =
          .error (.ArgError 5 "invalid length of pixel string") ∨
        f_draw hexdecoder_table s x0 y0 w h pixels alpha =
          .ok (draw_calls s
            (f_draw_calls hexdecoder_table x0 y0 (toInt w) (toInt h) pixels
              (toUint8 (alpha.getD 256))))) ∧
      WritesInsideClip s
        (f_draw_calls hexdecoder_table x0 y0 (toInt w) (toInt h) pixels
          (toUint8 (alpha.getD 256)))) := by
  have hall : ∀ calls, WritesInsideClip s calls :=
    fun calls => (writesInsideClip_of_wellFormed s hwf calls).1
  refine ⟨fun c => ⟨rfl, hall _⟩, fun c x y => ⟨rfl, hall _⟩, ?_,
    fun c x0 y0 x1 y1 fill => ⟨rfl, hall _⟩, fun c x0 y0 r fill => ⟨rfl, hall _⟩,
    fun c x0 y0 str => ⟨rfl, hall _⟩, ?_⟩
  · intro c x0 y0 x1 y1
    obtain ⟨calls, hcalls⟩ := f_line_calls_terminates (toUint8 c) x0 y0 x1 y1
    exact ⟨calls, hcalls, by simp only [f_line, hcalls, Option.map_some'], hall _⟩
  · intro x0 y0 w h pixels alpha
    refine ⟨?_, hall _⟩
    by_cases hlen : toInt (pixels.length : Int) = mulInt (toInt w) (toInt h)
    · right; simp only [f_draw, hlen, if_true]
    · left; simp only [f_draw, hlen, if_false]

theorem primitives_write_inside_clip_witness :
    WritesInsideClip sampleState (f_rect_calls (toUint8 3) (-5) (-5) 7 7 true) :=
  ((primitives_write_inside_clip (fun b => b) (fun _ _ => 255) sampleState (by decide)).2.2.2.1
    3 (-5) (-5) 7 7 true).2

/-- C21 (the code at the failing input): on the framebuffer made by
`create(2, 2)` (all cells 0, identity mapping), `remap(0, 16)` succeeds and
stores 16 in `mapping[0]`; the following `pixel(0, 0, 0)` then stores 16 in the
canvas cell `(0,0)`: both a mapping entry and a canvas cell are outside
`[0,15]`. -/
theorem canvas_cell_out_of_range :
    ∃ s1 s2, create 0 none sampleState 2 2 = some (.ok (s1, some (2, 2))) ∧
      s1.surface8 = some ⟨2, 2, 4, [0, 0, 0, 0, 0, 0, 0, 0]⟩ ∧
      s1.palette_mapping = [0, 1, 2, 3, 4, 5, 6, 7, 8, 9, 10, 11, 12, 13, 14, 15] ∧
      remap s1 0 16 = .ok (s2, [16]) ∧
      s2.palette_mapping[0]? = some 16 ∧
      cell (f_pixel s2 0 0 0) 0 0 = some 16 :=
  ⟨_, _, rfl, by decide, by decide, rfl, by decide, by decide⟩

/-- C22: with a framebuffer created (`texture`, `surface32` and `surface8` all
present), `render_screen` blits the 8-bit surface and updates the texture if
and only if `screen_modified` was set on entry; calls `SDL_SetPaletteColors`,
with the 16 palette colours, if and only if `screen_modified` and
`palette_modified` were both set on entry; leaves `screen_modified` clear;
clears `palette_modified` when it pushed the colours and leaves it as it was
otherwise; calls `SDL_RenderClear`, `SDL_RenderCopy` and `SDL_RenderPresent`
exactly once each; and changes neither the canvas, the palette, the mapping
nor the clip rectangle. -/
theorem render_screen_two_tier (s : State) (ht : s.texture = true) (h32 : s.surface32 = true)
    (h8 : s.surface8.isSome = true) :
    (BackendCall.BlitSurface ∈ (render_screen s).2 ↔ s.screen_modified ≠ 0) ∧
    (BackendCall.UpdateTexture ∈ (render_screen s).2 ↔ s.screen_modified ≠ 0) ∧
    ((∃ colors, BackendCall.SetPaletteColors colors ∈ (render_screen s).2) ↔
      (s.screen_modified ≠ 0 ∧ s.palette_modified ≠ 0)) ∧
    (∀ colors, BackendCall.SetPaletteColors colors ∈ (render_screen s).2 →
      colors = s.palette.take 16) ∧
    (render_screen s).1.screen_modified = 0 ∧
    (render_screen s).1.palette_modified =
      (if s.screen_modified ≠ 0 ∧ s.palette_modified ≠ 0 then 0 else s.palette_modified) ∧
    (render_screen s).2.count BackendCall.RenderClear = 1 ∧
    (render_screen s).2.count BackendCall.RenderCopy = 1 ∧
    (render_screen s).2.count BackendCall.RenderPresent = 1 ∧
    (render_screen s).2.count BackendCall.BlitSurface ≤ 1 ∧
    (render_screen s).2.count BackendCall.UpdateTexture ≤ 1 ∧
    (render_screen s).1.surface8 = s.surface8 ∧
    (render_screen s).1.palette = s.palette ∧
    (render_screen s).1.palette_mapping = s.palette_mapping ∧
    (render_screen s).1.clip_tl = s.clip_tl ∧ (render_screen s).1.clip_br = s.clip_br := by
  have hfb : (s.texture = true ∧ s.surface32 = true ∧ s.surface8.isSome = true) := ⟨ht, h32, h8⟩
  by_cases hs : s.screen_modified = 0
  · simp [render_screen, hfb, hs]
  · by_cases hp : s.palette_modified = 0
    · simp [render_screen, hfb, hs, hp]
    · simp [render_screen, hfb, hs, hp]

theorem render_screen_two_tier_witness :
    (BackendCall.BlitSurface ∈ (render_screen (f_pixel sampleState 3 0 0)).2 ↔
      (f_pixel sampleState 3 0 0).screen_modified ≠ 0) ∧
    (f_pixel sampleState 3 0 0).screen_modified ≠ 0 ∧
    (render_screen (f_pixel sampleState 3 0 0)).1.screen_modified = 0 :=
  ⟨(render_screen_two_tier (f_pixel sampleState 3 0 0) (by decide) (by decide) (by decide)).1,
   by decide,
   (render_screen_two_tier (f_pixel sampleState 3 0 0) (by decide) (by decide)
     (by decide)).2.2.2.2.1⟩

/-- C23 (the code at the failing input): for a desktop of 200×600 the available
width is `200 - 256 = -56`. For the canvas 100×100 the halving branch is taken
and its condition `width > dm.w` holds for every width from 100 down to 0 and
at 0 for ever: whatever the bound on the iterations, `init_screen` does not
return a window size. The same holds for a desktop of 600×200. -/
theorem halving_loop_never_ends (fuel : Nat) :
    fit_window fuel (some ⟨200, 600⟩) 100 100 = none ∧
    fit_window fuel (some ⟨600, 200⟩) 100 100 = none := by
  constructor
  · have hc : (100 : Int) > 200 - PIX_WINDOW_WIDTH ∨ (100 : Int) > 600 - PIX_WINDOW_HEIGHT := by
      decide
    simp only [fit_window, if_pos hc]
    exact halve_loop_diverges_w _ (by decide) fuel 100 100 (by decide)
  · have hc : (100 : Int) > 600 - PIX_WINDOW_WIDTH ∨ (100 : Int) > 200 - PIX_WINDOW_HEIGHT := by
      decide
    simp only [fit_window, if_pos hc]
    exact halve_loop_diverges_h _ (by decide) fuel 100 100 (by decide)

/-- C24 (the code at the failing input): for a desktop of 1920×1080 the
available area is 1664×824. For the canvas 1×1024 the halving branch is taken
(1024 > 824) and one iteration halves both sizes: the window size given to
`SDL_SetWindowSize` is `(0, 512)`, an empty window. -/
theorem halving_makes_empty_window (fuel : Nat) :
    fit_window (fuel + 1) (some ⟨1920, 1080⟩) 1 1024 = some (0, 512) ∧
    (1 : Int) ≤ 1920 - PIX_WINDOW_WIDTH ∧ (1 : Int) ≤ 1080 - PIX_WINDOW_HEIGHT := by
  refine ⟨?_, by decide, by decide⟩
  have hc : (1 : Int) > 1920 - PIX_WINDOW_WIDTH ∨ (1024 : Int) > 1080 - PIX_WINDOW_HEIGHT := by
    decide
  have hc2 : ¬ ((0 : Int) > 1920 - PIX_WINDOW_WIDTH ∨ (512 : Int) > 1080 - PIX_WINDOW_HEIGHT) := by
    decide
  have e1 : Int.tdiv 1 2 = 0 := by decide
  have e2 : Int.tdiv 1024 2 = 512 := by decide
  simp only [fit_window, if_pos hc, halve_loop, e1, e2]
  cases fuel <;> simp only [halve_loop, if_neg hc2]

end Pix
